import Mathlib

/-!
Verification of the reference-resolution and indexing engine of the
kustomize-navigator repository (src/src/kustomizeParser.ts, src/src/yamlUtils.ts
and the file-watcher coordinator bundled with them), against its
natural-language specification.

The TypeScript code is shallowly embedded: parsed YAML values are an inductive
type, the filesystem and the external YAML parser (js-yaml) are parameters of
an environment record, node's posix path functions are modelled on absolute
slash-separated path strings, and the few places where the source can throw a
TypeError (a truthy non-string value where a string is dereferenced with
.startsWith or passed to path.resolve) are modelled with Except Unit, caught
exactly at the try/catch boundaries of the source.
-/

set_option maxRecDepth 10000

namespace KNav

/-- A parsed YAML value, as js-yaml delivers it to the TypeScript code.
`obj` is a mapping (JS object), `arr` a sequence (JS array), `nullv` the JS
null. -/
inductive Yaml where
  | str (s : String)
  | num (n : Int)
  | boolean (b : Bool)
  | nullv
  | arr (items : List Yaml)
  | obj (fields : List (String × Yaml))
deriving Repr

/-- Key lookup in the field list of a mapping (JS property access). -/
def lookupField : List (String × Yaml) → String → Option Yaml
  | [], _ => none
  | (k, v) :: rest, key => if k = key then some v else lookupField rest key

/-- JS property access `value.key`: only mappings have (own) properties in the
code paths modelled here; on every other value it yields undefined. -/
def Yaml.get : Yaml → String → Option Yaml
  | .obj fields, key => lookupField fields key
  | _, _ => none

/-- JS truthiness of a parsed YAML value. -/
def Yaml.truthy : Yaml → Bool
  | .str s => s ≠ ""
  | .num n => n ≠ 0
  | .boolean b => b
  | .nullv => false
  | .arr _ => true
  | .obj _ => true

/-- `value && typeof value === 'object'` for a parsed YAML value: JS arrays and
objects have typeof 'object'; null is excluded by the truthiness conjunct. -/
def Yaml.isObjLike : Yaml → Bool
  | .arr _ => true
  | .obj _ => true
  | _ => false

/-- `Array.isArray(doc.key) ? doc.key : []`, the guard used throughout the
parser when reading list-valued fields. -/
def arrField (doc : Yaml) (key : String) : List Yaml :=
  match doc.get key with
  | some (.arr items) => items
  | _ => []

/-! ## Kernel-computable string primitives

The string functions the source uses (split, startsWith, drop, trim, join)
are modelled over the character list of the string, so that concrete
counterexamples and witnesses evaluate inside the kernel; each agrees with
the library function on the inputs used (single-character separators,
whitespace trimming). -/

/-- `s.split(sep)` for a single-character separator, as a list of segments
(JS split semantics: n separators yield n+1 segments). -/
def splitOnChar (c : Char) (l : List Char) : List (List Char) :=
  l.foldr
    (fun ch acc =>
      if ch = c then [] :: acc
      else
        match acc with
        | r :: rs => (ch :: r) :: rs
        | [] => [[ch]])
    [[]]

/-- String split on a single character. -/
def strSplitOnChar (c : Char) (s : String) : List String :=
  (splitOnChar c s.toList).map String.mk

/-- `s.startsWith(pre)`. -/
def strStartsWith (s pre : String) : Bool :=
  pre.toList.isPrefixOf s.toList

/-- `s.slice(n)` / String.drop for character counts. -/
def strDrop (s : String) (n : Nat) : String :=
  String.mk (s.toList.drop n)

/-- `s.trim()`: strip leading and trailing whitespace. -/
def strTrim (s : String) : String :=
  String.mk (((s.toList.dropWhile Char.isWhitespace).reverse.dropWhile
    Char.isWhitespace).reverse)

/-- Join character lists with a separator character. -/
def joinWithChar (c : Char) : List (List Char) → List Char
  | [] => []
  | [x] => x
  | x :: y :: ys => x ++ c :: joinWithChar c (y :: ys)

/-- `xs.join(c)` for strings. -/
def strIntercalateChar (c : Char) (xs : List String) : String :=
  String.mk (joinWithChar c (xs.map String.toList))

/-! ## Posix path model

All file paths handled by the code are absolute (the workspace scan joins glob
results onto the absolute workspace root).  Paths are slash-separated strings;
`pathNormalize`/`pathResolve`/`pathJoin`/`dirname` model node's posix path
functions on absolute inputs.  The filesystem model identifies a path with its
normalized form (no symlinks; `.`/`..`/`//` resolve purely lexically). -/

/-- Split a path into its non-empty segments. -/
def splitPath (s : String) : List String :=
  (strSplitOnChar '/' s).filter (fun seg => seg ≠ "")

/-- One step of lexical `.`/`..` resolution (absolute paths: `..` at the root
stays at the root, as in node's posix path handling). -/
def normFold (acc : List String) (seg : String) : List String :=
  if seg = "." then acc
  else if seg = ".." then acc.dropLast
  else acc ++ [seg]

/-- Rebuild an absolute path from segments. -/
def joinSegs (segs : List String) : String :=
  String.mk ('/' :: joinWithChar '/' (segs.map String.toList))

/-- node `path.normalize` on an absolute posix path. -/
def pathNormalize (p : String) : String :=
  joinSegs ((splitPath p).foldl normFold [])

/-- node `path.isAbsolute` (posix). -/
def pathIsAbsolute (p : String) : Bool :=
  strStartsWith p "/"

/-- node `path.resolve base ref` for an absolute `base`: an absolute `ref` is
normalized on its own, a relative one is joined onto `base` and normalized. -/
def pathResolve (base ref : String) : String :=
  if pathIsAbsolute ref then joinSegs ((splitPath ref).foldl normFold [])
  else joinSegs ((splitPath base ++ splitPath ref).foldl normFold [])

/-- node `path.join a b` for an absolute `a` (joins and normalizes). -/
def pathJoin (a b : String) : String :=
  joinSegs ((splitPath a ++ splitPath b).foldl normFold [])

/-- node `path.dirname` of an absolute path. -/
def dirname (p : String) : String :=
  joinSegs (splitPath p).dropLast

/-- Final path segment (used to model the `**/kustomization.{yaml,yml}` glob,
which matches by basename). -/
def baseName (p : String) : String :=
  ((splitPath p).getLast?).getD ""

/-! ## Environment

The external world the parser interacts with: the filesystem (existing regular
files and directories), the workspace root, git root discovery
(`git rev-parse --show-toplevel` per directory; `none` models a failing git
command), file contents, the js-yaml `load` function (`none` models a parse
exception), and the workspace YAML file listing produced by the globs
(absolute paths, node_modules already excluded). -/
structure Env where
  files : List String
  dirs : List String
  workspaceRoot : String
  gitRootOf : String → Option String
  content : String → String
  load : String → Option Yaml
  yamlFiles : List String

/-- `fs.existsSync(p) && fs.statSync(p).isFile()` (KustomizeParser.fileExists):
the kernel resolves `.`/`..`/`//` while walking the path, modelled by
normalizing before the lookup. -/
def fileExists (env : Env) (p : String) : Bool :=
  env.files.contains (pathNormalize p)

/-- `fs.existsSync(p) && fs.statSync(p).isDirectory()`
(KustomizeParser.isDirectory). -/
def isDirectory (env : Env) (p : String) : Bool :=
  env.dirs.contains (pathNormalize p)

/-- Well-formed filesystem: no path is both a regular file and a directory
(true of every real filesystem; the two lists of the model are independent,
so this is assumed where a proof needs it). -/
def Env.wfB (env : Env) : Bool :=
  env.files.all (fun p => !(env.dirs.contains p))

/-! ## YamlUtils (src/src/yamlUtils.ts) -/

/-- A line matched by the document separator regex `^---\s*$` (multiline):
`---` at the start of a line followed only by whitespace to the end of the
line.  (The `\s*` of the regex may additionally swallow following blank lines; that
only moves whitespace between segments, which the per-document trim erases,
so the line-based split below produces the same trimmed documents.) -/
def isSepLine (l : String) : Bool :=
  strStartsWith l "---" && (strDrop l 3).toList.all Char.isWhitespace

/-- Group the lines of a file into the segments between separator lines. -/
def splitAtSeps (lines : List String) : List (List String) :=
  lines.foldr
    (fun l acc =>
      if isSepLine l then [] :: acc
      else
        match acc with
        | r :: rs => (l :: r) :: rs
        | [] => [[l]])
    [[]]

/-- `text.split(/^---\s*$/m)`: the raw document substrings of a multi-document
YAML stream. -/
def splitYamlDocs (text : String) : List String :=
  (splitAtSeps (strSplitOnChar '\n' text)).map (fun seg => strIntercalateChar '\n' seg)

/-- YamlUtils.parseMultipleYamlDocuments: split on the document separator,
trim each segment, skip empty ones, parse each independently with js-yaml
(a parse exception is caught per document: `load = none` contributes
nothing), and keep a parse only when it is a truthy object
(`parsed && typeof parsed === 'object'`). -/
def parseMultipleYamlDocuments (load : String → Option Yaml) (text : String) : List Yaml :=
  (splitYamlDocs text).filterMap (fun docText =>
    let trimmed := strTrim docText
    if trimmed = "" then none
    else
      match load trimmed with
      | some parsed => if parsed.isObjLike then some parsed else none
      | none => none)

/-- YamlUtils.isFluxKustomizationDocument: one of the three Flux API versions
and kind Kustomization (strict string equality in the source). -/
def isFluxKustomizationDocument (content : Yaml) : Bool :=
  if !content.isObjLike then false
  else
    match content.get "apiVersion", content.get "kind" with
    | some (.str a), some (.str k) =>
        (a = "kustomize.toolkit.fluxcd.io/v1beta2" ||
         a = "kustomize.toolkit.fluxcd.io/v1beta1" ||
         a = "kustomize.toolkit.fluxcd.io/v1") && k = "Kustomization"
    | _, _ => false

/-- The fixed list of characteristic Kustomize field names used for legacy
files without an explicit apiVersion. -/
def kustomizeFields : List String :=
  ["resources", "bases", "patchesStrategicMerge", "patchesJson6902",
   "configMapGenerator", "secretGenerator", "generatorOptions",
   "namePrefix", "nameSuffix", "commonLabels", "commonAnnotations"]

/-- `kustomizeFields.filter(field => field in parsed).length`. -/
def legacyFieldCount (content : Yaml) : Nat :=
  kustomizeFields.countP (fun f => (content.get f).isSome)

/-- YamlUtils.isStandardKustomizationDocument.  The source dereferences
`content.apiVersion.startsWith(...)` after only a truthiness check, so a
truthy non-string apiVersion throws a TypeError there; that is the
`.error` case, which callers catch at the documented try/catch boundaries. -/
def isStandardKustomizationDocumentE (content : Yaml) : Except Unit Bool :=
  if !content.isObjLike then .ok false
  else
    match content.get "apiVersion" with
    | some (.str s) =>
        if s ≠ "" && strStartsWith s "kustomize.config.k8s.io/" then
          .ok (match content.get "kind" with
               | some (.str k) => k = "Kustomization"
               | _ => false)
        else .ok (legacyFieldCount content ≥ 2)
    | some v => if v.truthy then .error () else .ok (legacyFieldCount content ≥ 2)
    | none => .ok (legacyFieldCount content ≥ 2)

/-- `documents.filter(...)` over an exception-throwing predicate: JS filter
aborts at the first thrown exception. -/
def filterE (p : Yaml → Except Unit Bool) : List Yaml → Except Unit (List Yaml)
  | [] => .ok []
  | x :: xs => do
      let b ← p x
      let rest ← filterE p xs
      pure (if b then x :: rest else rest)

/-- The parsed document stream of the file at `p` (readFileSync + multi-doc
parse); meaningful when `p` is an existing file. -/
def docsOf (env : Env) (p : String) : List Yaml :=
  parseMultipleYamlDocuments env.load (env.content p)

/-- YamlUtils.containsFluxKustomizations lifted to a file path, i.e.
KustomizeParser.isFluxKustomizationFile: readFileSync (throws on a missing
file, caught to false), then "some document is a Flux Kustomization". -/
def isFluxKustomizationFile (env : Env) (p : String) : Bool :=
  if !fileExists env p then false
  else (docsOf env p).any isFluxKustomizationDocument

/-- The standard-kustomization documents of a file
(YamlUtils.getStandardKustomizationDocuments); a classification TypeError
propagates to the caller. -/
def standardDocsOfE (env : Env) (p : String) : Except Unit (List Yaml) :=
  filterE isStandardKustomizationDocumentE (docsOf env p)

/-- The Flux Kustomization documents of a file
(YamlUtils.getFluxKustomizationDocuments); never throws. -/
def fluxDocsOf (env : Env) (p : String) : List Yaml :=
  (docsOf env p).filter isFluxKustomizationDocument

/-! ## KustomizeParser (src/src/kustomizeParser.ts, current version) -/

/-- KustomizeParser.findGitRoot without its memo cache: `git rev-parse
--show-toplevel` in the file's directory, falling back to the workspace root
when the git command fails.  (The per-directory cache only memoizes this
deterministic value; the cached variant is `findGitRootS` below.) -/
def findGitRoot (env : Env) (filePath : String) : String :=
  match env.gitRootOf (dirname filePath) with
  | some gitRoot => gitRoot
  | none => env.workspaceRoot

/-- KustomizeParser.resolveReference: a Flux referencing file resolves
relative to the git repository root (absolute references returned unchanged,
a leading `./` stripped); a standard one resolves relative to its own
directory. -/
def resolveReference (env : Env) (basePath reference : String) : String :=
  if isFluxKustomizationFile env basePath then
    let gitRoot := findGitRoot env basePath
    if pathIsAbsolute reference then reference
    else
      let cleanReference := if strStartsWith reference "./" then strDrop reference 2 else reference
      pathResolve gitRoot cleanReference
  else
    pathResolve (dirname basePath) reference

/-- The KustomizationFile record.  The TypeScript field types are nominal
only: at runtime each list holds whatever js-yaml produced, so every field is
a list of YAML values here. -/
structure KFile where
  filePath : String
  resources : List Yaml
  bases : List Yaml
  patches : List Yaml
  patchesStrategicMerge : List Yaml
  patchesJson6902 : List Yaml
  components : List Yaml
  configurations : List Yaml
  crds : List Yaml
  generators : List Yaml
  transformers : List Yaml
deriving Repr

/-- KustomizeParser.parseStandardKustomization. -/
def parseStandardKustomization (filePath : String) (parsed : Yaml) : KFile where
  filePath := filePath
  resources := arrField parsed "resources"
  bases := arrField parsed "bases"
  patches := arrField parsed "patches"
  patchesStrategicMerge := arrField parsed "patchesStrategicMerge"
  patchesJson6902 := arrField parsed "patchesJson6902"
  components := arrField parsed "components"
  configurations := arrField parsed "configurations"
  crds := arrField parsed "crds"
  generators := arrField parsed "generators"
  transformers := arrField parsed "transformers"

/-- The patch-path extraction step of processPatchReferences (flux side):
a string entry is itself the path, an object entry contributes a truthy
`path` member; the subsequent `if (patchPath)` guard drops an empty string.
A truthy non-string `path` is handed to path.resolve, which throws
(`.error`); there is no per-entry catch on the flux side. -/
def patchRawOfE : Yaml → Except Unit (Option String)
  | .str s => .ok (if s = "" then none else some s)
  | y =>
      if y.isObjLike then
        match y.get "path" with
        | some v =>
            if v.truthy then
              match v with
              | .str s => .ok (some s)
              | _ => .error ()
            else .ok none
        | none => .ok none
      else .ok none

/-- processPatchReferences (inside parseFluxKustomization): each patch entry
contributes its resolved path when that path is an existing file.  There is
no directory-to-kustomization-file expansion on this code path. -/
def fluxPatchRefsE (env : Env) (filePath : String) : List Yaml → Except Unit (List String)
  | [] => .ok []
  | patch :: rest => do
      let po ← patchRawOfE patch
      let tail ← fluxPatchRefsE env filePath rest
      match po with
      | some patchPath =>
          let resolvedPath := resolveReference env filePath patchPath
          pure (if fileExists env resolvedPath then resolvedPath :: tail else tail)
      | none => pure tail

/-- The spec.path handling of parseFluxKustomization: resolve, then if the
result is an existing directory try `kustomization.yaml` then
`kustomization.yml` inside it, otherwise take the result itself when it is an
existing file. -/
def fluxSpecPathRefs (env : Env) (filePath : String) (spec : Yaml) : List String :=
  match spec.get "path" with
  | some (.str s) =>
      if s ≠ "" then
        let resolvedPath := resolveReference env filePath s
        if isDirectory env resolvedPath then
          let kustomizationYaml := pathJoin resolvedPath "kustomization.yaml"
          let kustomizationYml := pathJoin resolvedPath "kustomization.yml"
          if fileExists env kustomizationYaml then [kustomizationYaml]
          else if fileExists env kustomizationYml then [kustomizationYml]
          else []
        else if fileExists env resolvedPath then [resolvedPath]
        else []
      else []
  | _ => []

/-- KustomizeParser.parseFluxKustomization: null when `spec` is missing or
falsy; otherwise the references from spec.path, spec.patches,
spec.patchesStrategicMerge and spec.patchesJson6902 (in that order), plus the
KustomizationFile view of the document. -/
def parseFluxKustomizationE (env : Env) (filePath : String) (parsed : Yaml) :
    Except Unit (Option (KFile × List String)) :=
  match parsed.get "spec" with
  | none => .ok none
  | some spec =>
      if !spec.truthy then .ok none
      else do
        let pathRefs := fluxSpecPathRefs env filePath spec
        let r1 ← fluxPatchRefsE env filePath (arrField spec "patches")
        let r2 ← fluxPatchRefsE env filePath (arrField spec "patchesStrategicMerge")
        let r3 ← fluxPatchRefsE env filePath (arrField spec "patchesJson6902")
        let kustomization : KFile :=
          { filePath := filePath
            resources := []
            bases := []
            patches := arrField spec "patches"
            patchesStrategicMerge := arrField spec "patchesStrategicMerge"
            patchesJson6902 := arrField spec "patchesJson6902"
            components := arrField spec "components"
            configurations := []
            crds := []
            generators := []
            transformers := [] }
        pure (some (kustomization, pathRefs ++ r1 ++ r2 ++ r3))

/-- The flux loop of parseKustomizationFile: parse every Flux document,
keeping the non-null results. -/
def fluxResultsE (env : Env) (filePath : String) :
    List Yaml → Except Unit (List (KFile × List String))
  | [] => .ok []
  | doc :: rest => do
      let r ← parseFluxKustomizationE env filePath doc
      let tail ← fluxResultsE env filePath rest
      pure (match r with | some res => res :: tail | none => tail)

/-- KustomizeParser.parseKustomizationFile: read the file (a missing file
throws, caught to `[]`), collect the Flux and standard documents, and return
the KustomizationFile of each (Flux results first); any TypeError inside is
caught by the surrounding try, yielding `[]`. -/
def parseKustomizationFile (env : Env) (filePath : String) : List KFile :=
  if !fileExists env filePath then []
  else
    match standardDocsOfE env filePath with
    | .error _ => []
    | .ok standardDocs =>
        match fluxResultsE env filePath (fluxDocsOf env filePath) with
        | .error _ => []
        | .ok fluxResults =>
            fluxResults.map (fun r => r.1) ++
              standardDocs.map (parseStandardKustomization filePath)

/-- KustomizeParser.getFluxResolvedReferences: the concatenated resolved
references of all Flux documents in the file; an empty flux document list or
any exception yields `[]`. -/
def getFluxResolvedReferences (env : Env) (filePath : String) : List String :=
  if !fileExists env filePath then []
  else
    let fluxDocs := fluxDocsOf env filePath
    if fluxDocs.isEmpty then []
    else
      match fluxResultsE env filePath fluxDocs with
      | .error _ => []
      | .ok results => (results.map (fun r => r.2)).flatten

/-! ## buildReferenceMap -/

/-- The raw-reference extraction step of addReferences: a string entry is the
raw reference, an object entry with a truthy `path` member contributes that
member.  A truthy non-string `path` makes path.resolve throw, which the
per-entry try/catch of addReferences swallows (`none`). -/
def rawRefOf : Yaml → Option String
  | .str s => some s
  | y =>
      if y.isObjLike then
        match y.get "path" with
        | some (.str s) => if s ≠ "" then some s else none
        | _ => none
      else none

/-- One addReferences entry: resolve the raw reference, expand an existing
directory to the kustomization.yaml/kustomization.yml inside it when one
exists, and keep the result only when it is an existing file. -/
def resolveOne (env : Env) (filePath : String) (refPath : Yaml) : Option String :=
  match rawRefOf refPath with
  | none => none
  | some r =>
      let resolvedPath := resolveReference env filePath r
      let resolvedPath :=
        if isDirectory env resolvedPath then
          let kustomizationPath := pathJoin resolvedPath "kustomization.yaml"
          let kustomizationPathYml := pathJoin resolvedPath "kustomization.yml"
          if fileExists env kustomizationPath then kustomizationPath
          else if fileExists env kustomizationPathYml then kustomizationPathYml
          else resolvedPath
        else resolvedPath
      if fileExists env resolvedPath then some resolvedPath else none

/-- The standard-document body of the buildReferenceMap loop: addReferences
over resources, bases, components, patches, patchesStrategicMerge,
configurations and crds, then the `path` members of patchesJson6902 entries
(`if (patch.path) addReferences([patch.path])`). -/
def refsOfStandardDoc (env : Env) (filePath : String) (k : KFile) : List String :=
  let direct := (k.resources ++ k.bases ++ k.components ++ k.patches ++
      k.patchesStrategicMerge ++ k.configurations ++ k.crds).filterMap (resolveOne env filePath)
  let json := k.patchesJson6902.filterMap (fun patch =>
    match patch.get "path" with
    | some v => if v.truthy then resolveOne env filePath v else none
    | none => none)
  direct ++ json

/-- The reference list buildReferenceMap computes for one file: the Flux
resolved references for a Flux file, the per-document addReferences output
for a standard one. -/
def fileRefsOf (env : Env) (filePath : String) : List String :=
  if isFluxKustomizationFile env filePath then getFluxResolvedReferences env filePath
  else ((parseKustomizationFile env filePath).map (refsOfStandardDoc env filePath)).flatten

/-- Back-reference kind tag: 'flux' | 'k8s'. -/
inductive RefType where
  | flux
  | k8s
deriving Repr, DecidableEq

/-- Insertion-ordered association list lookup (JS Map.get). -/
def getA : List (String × α) → String → Option α
  | [], _ => none
  | (k, v) :: rest, key => if k = key then some v else getA rest key

/-- Insertion-ordered association list update (JS Map.set: overwrite in
place, or append a new key). -/
def setA : List (String × α) → String → α → List (String × α)
  | [], key, v => [(key, v)]
  | (k, w) :: rest, key, v =>
      if k = key then (k, v) :: rest else (k, w) :: setA rest key v

/-- The bidirectional reference index (KustomizeReferenceMap), as two
insertion-ordered maps. -/
structure RefMap where
  fileReferences : List (String × List String)
  fileBackReferences : List (String × List (String × RefType))
deriving Repr

/-- The back-reference update of buildReferenceMap for one resolved path:
normalize the target, and append `(filePath, type)` to its bucket unless an
entry for `filePath` is already there.  (The source first materializes an
empty bucket and then pushes; the two-step dance collapses to this.) -/
def addBack (isFlux : Bool) (filePath : String) (rm : RefMap) (resolvedPath : String) : RefMap :=
  let normalizedPath := pathNormalize resolvedPath
  let backRefs := (getA rm.fileBackReferences normalizedPath).getD []
  let refType := if isFlux then RefType.flux else RefType.k8s
  if backRefs.any (fun r => r.1 = filePath) then rm
  else
    let newBucket := backRefs ++ [(filePath, refType)]
    { rm with fileBackReferences := setA rm.fileBackReferences normalizedPath newBucket }

/-- The body of the buildReferenceMap loop for one discovered file: skip
files that parse to nothing, otherwise store the file's references and update
the back-references for each of them. -/
def processFile (env : Env) (rm : RefMap) (filePath : String) : RefMap :=
  if (parseKustomizationFile env filePath).isEmpty then rm
  else
    let isFlux := isFluxKustomizationFile env filePath
    let references := fileRefsOf env filePath
    let rm := { rm with fileReferences := setA rm.fileReferences filePath references }
    references.foldl (addBack isFlux filePath) rm

/-- KustomizeParser.findKustomizationFiles: the `kustomization.{yaml,yml}`
glob results, then the other YAML files that contain a Flux Kustomization
document. -/
def findKustomizationFiles (env : Env) : List String :=
  let isKustName := fun p =>
    baseName p = "kustomization.yaml" || baseName p = "kustomization.yml"
  let kustomizationFiles := env.yamlFiles.filter isKustName
  let others := env.yamlFiles.filter (fun p => !isKustName p)
  kustomizationFiles ++ others.filter (isFluxKustomizationFile env)

/-- KustomizeParser.buildReferenceMap: reset the index, then process every
discovered kustomization file in order. -/
def buildReferenceMap (env : Env) : RefMap :=
  (findKustomizationFiles env).foldl (processFile env) ⟨[], []⟩

/-- The kind tag buildReferenceMap attaches to back-references of a given
referencing file. -/
def kindOf (env : Env) (filePath : String) : RefType :=
  if isFluxKustomizationFile env filePath then RefType.flux else RefType.k8s

/-- The back-reference bucket of a target (empty when the target has no
entry). -/
def bucketOf (rm : RefMap) (t : String) : List (String × RefType) :=
  (getA rm.fileBackReferences t).getD []

/-- The index-symmetry invariant of the built reference map: every stored
forward list is the deterministic recomputation for its file, every forward
target appears (normalized) in the back-references with the right kind, and
every back-reference entry is justified by a forward target normalizing to
its key. -/
structure RefMapInv (env : Env) (rm : RefMap) : Prop where
  refsEq : ∀ F refs, getA rm.fileReferences F = some refs → refs = fileRefsOf env F
  fwd : ∀ F refs, getA rm.fileReferences F = some refs →
      ∀ T ∈ refs, (F, kindOf env F) ∈ bucketOf rm (pathNormalize T)
  bwd : ∀ T b, getA rm.fileBackReferences T = some b →
      ∀ e ∈ b, e.2 = kindOf env e.1 ∧
        ∃ refs, getA rm.fileReferences e.1 = some refs ∧
          ∃ Tp, Tp ∈ refs ∧ pathNormalize Tp = T

/-! ## Claim-side definitions (spec wording, to compare with the source) -/

/-- The final target the claims describe for a raw reference: the resolved
path, with an existing directory expanded to the `kustomization.yaml` inside
it when that exists, else to the `kustomization.yml` when that exists. -/
def finalTarget (env : Env) (filePath r : String) : String :=
  let resolved := resolveReference env filePath r
  if isDirectory env resolved && fileExists env (pathJoin resolved "kustomization.yaml") then
    pathJoin resolved "kustomization.yaml"
  else if isDirectory env resolved && fileExists env (pathJoin resolved "kustomization.yml") then
    pathJoin resolved "kustomization.yml"
  else resolved

/-- The multi-document parse described by claim C9: the parses of exactly the
well-formed (load succeeds), non-empty documents of the stream, in order. -/
def parseMultipleYamlDocumentsSpec (load : String → Option Yaml) (text : String) : List Yaml :=
  (splitYamlDocs text).filterMap (fun docText =>
    let trimmed := strTrim docText
    if trimmed = "" then none else load trimmed)

/-- The multi-document parse with the amendment claim C9 needs: only the
well-formed, non-empty documents whose parsed value is an object or array are
kept (well-formed scalar and null documents are dropped too). -/
def parseMultipleYamlDocumentsSpecAmended (load : String → Option Yaml) (text : String) :
    List Yaml :=
  (splitYamlDocs text).filterMap (fun docText =>
    let trimmed := strTrim docText
    if trimmed = "" then none
    else (load trimmed).bind (fun parsed => if parsed.isObjLike then some parsed else none))

/-- The standard-document classification exactly as claim C5 states it:
matching apiVersion prefix with kind Kustomization, or apiVersion absent with
at least two of the eleven characteristic fields. -/
def standardDocClaimSpec (doc : Yaml) : Bool :=
  (match doc.get "apiVersion", doc.get "kind" with
   | some (.str a), some (.str k) =>
       strStartsWith a "kustomize.config.k8s.io/" && k = "Kustomization"
   | _, _ => false)
  || ((doc.get "apiVersion").isNone && legacyFieldCount doc ≥ 2)

/-- The truthy-string-with-matching-prefix test of the source's first branch. -/
def apiPrefixMatch (doc : Yaml) : Bool :=
  match doc.get "apiVersion" with
  | some (.str s) => s ≠ "" && strStartsWith s "kustomize.config.k8s.io/"
  | _ => false

/-- `doc.kind === 'Kustomization'`. -/
def kindIsKustomization (doc : Yaml) : Bool :=
  match doc.get "kind" with
  | some (.str k) => k = "Kustomization"
  | _ => false

/-- The standard-document classification with the amendment claim C5 needs:
the two-field heuristic applies to every mapping whose apiVersion is absent,
falsy, or does not start with the standard prefix — not only to documents
lacking apiVersion. -/
def standardDocClaimAmended (doc : Yaml) : Bool :=
  doc.isObjLike &&
    ((apiPrefixMatch doc && kindIsKustomization doc) ||
     (!apiPrefixMatch doc && legacyFieldCount doc ≥ 2))

/-- Documents whose apiVersion field, if present, is a string or falsy: on a
truthy non-string apiVersion the source throws a TypeError inside the
classifier instead of returning a verdict, so classification claims are
stated on this domain. -/
def apiVersionStringOrAbsent (doc : Yaml) : Prop :=
  ∀ v, doc.get "apiVersion" = some v → (∃ s, v = Yaml.str s) ∨ v.truthy = false

/-! ## The change-event coordinator (KustomizeFileWatcher)

`handleFileChange` pushes the path onto the rolling event list; past the
mass-change threshold it clears the parser caches, resets the list and
debounce-schedules a full rebuild, otherwise it debounce-schedules an
incremental update for the file.  Both `debouncedScanWorkspace` and
`debouncedIncrementalUpdate` share the single `scanTimeout` timer: each call
clears the pending timeout and installs its own callback.  For a burst of
events with gaps below the debounce delay and inside the one-second
detection window (no cleanup-interval tick), the state below captures what
runs when the burst ends: exactly the one pending task. -/

/-- The fixed mass-change threshold (50 events). -/
def massChangeThreshold : Nat := 50

/-- What the shared debounce timer will run when it fires. -/
inductive ScheduledTask where
  | incrementalUpdate (filePath : String)
  | fullRebuild
deriving Repr, DecidableEq

/-- Coordinator state: the rolling event list, the pending debounced task,
and counters for cache clears and rebuild schedulings. -/
structure WatcherState where
  recentChangeEvents : List String
  scanTimeout : Option ScheduledTask
  cacheClearCount : Nat
  rebuildsScheduled : Nat
deriving Repr, DecidableEq

/-- Coordinator state at initialization. -/
def initialWatcherState : WatcherState :=
  { recentChangeEvents := [], scanTimeout := none, cacheClearCount := 0, rebuildsScheduled := 0 }

/-- KustomizeFileWatcher.handleFileChange for one event inside the detection
window. -/
def handleFileChange (st : WatcherState) (filePath : String) : WatcherState :=
  let recent := st.recentChangeEvents ++ [filePath]
  if recent.length > massChangeThreshold then
    { recentChangeEvents := []
      scanTimeout := some ScheduledTask.fullRebuild
      cacheClearCount := st.cacheClearCount + 1
      rebuildsScheduled := st.rebuildsScheduled + 1 }
  else
    { st with
        recentChangeEvents := recent
        scanTimeout := some (ScheduledTask.incrementalUpdate filePath) }

/-! ## The filesystem cache (spec section 4.4) -/

/-- Modelled from the spec: the existence CacheEntry of the Filesystem Cache,
`exists + mtime` with `mtime = 0` the sentinel for confirmed non-existence;
the cache implementation itself is not under src (only its callers
`cachedFileExists`/`clearCaches` and the PERFORMANCE.md description are). -/
structure FsCacheEntry where
  present : Bool
  mtime : Nat
deriving Repr, DecidableEq

/-- Modelled from the spec: the Filesystem Cache store, keyed by normalized
absolute path. -/
structure FsCache where
  entries : List (String × FsCacheEntry)
deriving Repr, DecidableEq

/-- A snapshot of the real filesystem at the moment of one cache operation
(it may differ between operations: out-of-band creations/deletions). -/
structure FsView where
  fileExistsNow : String → Bool
  mtimeNow : String → Nat

/-- Modelled from the spec: `exists(path)` — a cache hit is returned without
re-validating against the filesystem; a miss performs one stat and caches
existence + mtime, or the non-existence sentinel.  The third component counts
the filesystem accesses the call performed (0 on a hit, 1 on a miss). -/
def cacheExists (v : FsView) (c : FsCache) (p : String) : Bool × FsCache × Nat :=
  let key := pathNormalize p
  match getA c.entries key with
  | some e => (e.present, c, 0)
  | none =>
      if v.fileExistsNow key then (true, ⟨setA c.entries key ⟨true, v.mtimeNow key⟩⟩, 1)
      else (false, ⟨setA c.entries key ⟨false, 0⟩⟩, 1)

/-- Association-list removal, for invalidation. -/
def removeA : List (String × α) → String → List (String × α)
  | [], _ => []
  | (k, v) :: rest, key => if k = key then removeA rest key else (k, v) :: removeA rest key

/-- Modelled from the spec: `invalidate(path)` drops the entry for a
normalized path. -/
def cacheInvalidate (c : FsCache) (p : String) : FsCache :=
  ⟨removeA c.entries (pathNormalize p)⟩

/-- Modelled from the spec: `clearAll()` drops every entry (mass-change
fallback). -/
def cacheClearAll (_ : FsCache) : FsCache :=
  ⟨[]⟩

/-- Modelled from the spec: `validateAndRefresh(path)` forcibly invalidates
then immediately re-stats a path. -/
def cacheValidateAndRefresh (v : FsView) (c : FsCache) (p : String) : Bool × FsCache × Nat :=
  cacheExists v (cacheInvalidate c p) p

/-! ## The git-root cache, threaded (for rebuild idempotence)

buildReferenceMap resets `this.referenceMap` on entry, so the only parser
state that survives from one full rebuild into the next is the per-directory
`gitRootCache`.  The `...S` functions below are the same code with that cache
threaded through explicitly, following the source's evaluation order. -/

/-- The per-directory git-root memo (KustomizeParser.gitRootCache). -/
abbrev GitCache := List (String × String)

/-- KustomizeParser.findGitRoot with its cache: return a hit, otherwise run
the git command (workspace-root fallback) and memoize. -/
def findGitRootS (env : Env) (c : GitCache) (filePath : String) : String × GitCache :=
  let cacheKey := dirname filePath
  match getA c cacheKey with
  | some r => (r, c)
  | none =>
      match env.gitRootOf cacheKey with
      | some gitRoot => (gitRoot, setA c cacheKey gitRoot)
      | none => (env.workspaceRoot, setA c cacheKey env.workspaceRoot)

/-- resolveReference, cache-threaded (the git root is looked up before the
absolute-reference check, as in the source). -/
def resolveReferenceS (env : Env) (c : GitCache) (basePath reference : String) :
    String × GitCache :=
  if isFluxKustomizationFile env basePath then
    let (gitRoot, c) := findGitRootS env c basePath
    if pathIsAbsolute reference then (reference, c)
    else
      let cleanReference := if strStartsWith reference "./" then strDrop reference 2 else reference
      (pathResolve gitRoot cleanReference, c)
  else (pathResolve (dirname basePath) reference, c)

/-- The spec.path handling, cache-threaded. -/
def fluxSpecPathRefsS (env : Env) (c : GitCache) (filePath : String) (spec : Yaml) :
    List String × GitCache :=
  match spec.get "path" with
  | some (.str s) =>
      if s ≠ "" then
        let (resolvedPath, c) := resolveReferenceS env c filePath s
        if isDirectory env resolvedPath then
          let kustomizationYaml := pathJoin resolvedPath "kustomization.yaml"
          let kustomizationYml := pathJoin resolvedPath "kustomization.yml"
          if fileExists env kustomizationYaml then ([kustomizationYaml], c)
          else if fileExists env kustomizationYml then ([kustomizationYml], c)
          else ([], c)
        else if fileExists env resolvedPath then ([resolvedPath], c)
        else ([], c)
      else ([], c)
  | _ => ([], c)

/-- processPatchReferences, cache-threaded (entries in order; an extraction
TypeError aborts the rest but keeps the cache updates already made). -/
def fluxPatchRefsES (env : Env) (filePath : String) :
    GitCache → List Yaml → Except Unit (List String) × GitCache
  | c, [] => (.ok [], c)
  | c, patch :: rest =>
      match patchRawOfE patch with
      | .error e => (.error e, c)
      | .ok (some patchPath) =>
          let (resolvedPath, c) := resolveReferenceS env c filePath patchPath
          let (tailE, c) := fluxPatchRefsES env filePath c rest
          ((tailE.map fun tail =>
            if fileExists env resolvedPath then resolvedPath :: tail else tail), c)
      | .ok none =>
          let (tailE, c) := fluxPatchRefsES env filePath c rest
          (tailE, c)

/-- parseFluxKustomization, cache-threaded. -/
def parseFluxKustomizationES (env : Env) (c : GitCache) (filePath : String) (parsed : Yaml) :
    Except Unit (Option (KFile × List String)) × GitCache :=
  match parsed.get "spec" with
  | none => (.ok none, c)
  | some spec =>
      if !spec.truthy then (.ok none, c)
      else
        let (pathRefs, c) := fluxSpecPathRefsS env c filePath spec
        let (r1E, c) := fluxPatchRefsES env filePath c (arrField spec "patches")
        match r1E with
        | .error e => (.error e, c)
        | .ok r1 =>
            let (r2E, c) := fluxPatchRefsES env filePath c (arrField spec "patchesStrategicMerge")
            match r2E with
            | .error e => (.error e, c)
            | .ok r2 =>
                let (r3E, c) := fluxPatchRefsES env filePath c (arrField spec "patchesJson6902")
                match r3E with
                | .error e => (.error e, c)
                | .ok r3 =>
                    let kustomization : KFile :=
                      { filePath := filePath
                        resources := []
                        bases := []
                        patches := arrField spec "patches"
                        patchesStrategicMerge := arrField spec "patchesStrategicMerge"
                        patchesJson6902 := arrField spec "patchesJson6902"
                        components := arrField spec "components"
                        configurations := []
                        crds := []
                        generators := []
                        transformers := [] }
                    (.ok (some (kustomization, pathRefs ++ r1 ++ r2 ++ r3)), c)

/-- The flux document loop, cache-threaded. -/
def fluxResultsES (env : Env) (filePath : String) :
    GitCache → List Yaml → Except Unit (List (KFile × List String)) × GitCache
  | c, [] => (.ok [], c)
  | c, doc :: rest =>
      let (rE, c) := parseFluxKustomizationES env c filePath doc
      match rE with
      | .error e => (.error e, c)
      | .ok r =>
          let (tailE, c) := fluxResultsES env filePath c rest
          ((tailE.map fun tail => match r with | some res => res :: tail | none => tail), c)

/-- parseKustomizationFile, cache-threaded. -/
def parseKustomizationFileS (env : Env) (c : GitCache) (filePath : String) :
    List KFile × GitCache :=
  if !fileExists env filePath then ([], c)
  else
    match standardDocsOfE env filePath with
    | .error _ => ([], c)
    | .ok standardDocs =>
        let (fluxResE, c) := fluxResultsES env filePath c (fluxDocsOf env filePath)
        match fluxResE with
        | .error _ => ([], c)
        | .ok fluxResults =>
            (fluxResults.map (fun r => r.1) ++
              standardDocs.map (parseStandardKustomization filePath), c)

/-- getFluxResolvedReferences, cache-threaded. -/
def getFluxResolvedReferencesS (env : Env) (c : GitCache) (filePath : String) :
    List String × GitCache :=
  if !fileExists env filePath then ([], c)
  else
    let fluxDocs := fluxDocsOf env filePath
    if fluxDocs.isEmpty then ([], c)
    else
      let (resE, c) := fluxResultsES env filePath c fluxDocs
      match resE with
      | .error _ => ([], c)
      | .ok results => ((results.map (fun r => r.2)).flatten, c)

/-- One addReferences entry, cache-threaded. -/
def resolveOneS (env : Env) (c : GitCache) (filePath : String) (refPath : Yaml) :
    Option String × GitCache :=
  match rawRefOf refPath with
  | none => (none, c)
  | some r =>
      let (resolvedPath, c) := resolveReferenceS env c filePath r
      let resolvedPath :=
        if isDirectory env resolvedPath then
          let kustomizationPath := pathJoin resolvedPath "kustomization.yaml"
          let kustomizationPathYml := pathJoin resolvedPath "kustomization.yml"
          if fileExists env kustomizationPath then kustomizationPath
          else if fileExists env kustomizationPathYml then kustomizationPathYml
          else resolvedPath
        else resolvedPath
      ((if fileExists env resolvedPath then some resolvedPath else none), c)

/-- Cache-threaded filterMap, for the addReferences loops. -/
def filterMapS (g : GitCache → α → Option β × GitCache) :
    GitCache → List α → List β × GitCache
  | c, [] => ([], c)
  | c, x :: xs =>
      let (r, c) := g c x
      let (rest, c) := filterMapS g c xs
      ((match r with | some b => b :: rest | none => rest), c)

/-- Cache-threaded map, for the per-document loop. -/
def mapS (g : GitCache → α → β × GitCache) : GitCache → List α → List β × GitCache
  | c, [] => ([], c)
  | c, x :: xs =>
      let (b, c) := g c x
      let (rest, c) := mapS g c xs
      (b :: rest, c)

/-- The standard-document body of the loop, cache-threaded. -/
def refsOfStandardDocS (env : Env) (c : GitCache) (filePath : String) (k : KFile) :
    List String × GitCache :=
  let (direct, c) := filterMapS (fun c y => resolveOneS env c filePath y) c
    (k.resources ++ k.bases ++ k.components ++ k.patches ++
      k.patchesStrategicMerge ++ k.configurations ++ k.crds)
  let (json, c) := filterMapS
    (fun c patch =>
      match patch.get "path" with
      | some v => if v.truthy then resolveOneS env c filePath v else (none, c)
      | none => (none, c))
    c k.patchesJson6902
  (direct ++ json, c)

/-- The buildReferenceMap loop body, cache-threaded. -/
def processFileS (env : Env) (acc : RefMap × GitCache) (filePath : String) :
    RefMap × GitCache :=
  let (rm, c) := acc
  let (ks, c) := parseKustomizationFileS env c filePath
  if ks.isEmpty then (rm, c)
  else
    let isFlux := isFluxKustomizationFile env filePath
    let (references, c) :=
      if isFlux then getFluxResolvedReferencesS env c filePath
      else
        let (lists, c) := mapS (fun c k => refsOfStandardDocS env c filePath k) c ks
        (lists.flatten, c)
    let rm := { rm with fileReferences := setA rm.fileReferences filePath references }
    (references.foldl (addBack isFlux filePath) rm, c)

/-- buildReferenceMap, cache-threaded: the reference map is reset on entry
(the fold starts from the empty index); the git-root cache carries over. -/
def buildReferenceMapS (env : Env) (c : GitCache) : RefMap × GitCache :=
  (findKustomizationFiles env).foldl (processFileS env) (⟨[], []⟩, c)

/-- The value git-root discovery produces for a directory (with the
workspace-root fallback for a failing git command). -/
def gitRootValue (env : Env) (dir : String) : String :=
  match env.gitRootOf dir with
  | some gitRoot => gitRoot
  | none => env.workspaceRoot

/-- A git-root cache whose every entry agrees with what discovery (with its
workspace-root fallback) returns for that directory — true of every cache
state the parser can reach, since entries are only ever written with exactly
that value. -/
def GitCacheConsistent (env : Env) (c : GitCache) : Prop :=
  ∀ k r, getA c k = some r → r = gitRootValue env k

/-! ## Concrete inputs for counterexamples and witnesses -/

/-- The newest Flux Kustomization apiVersion string. -/
def fluxApiV1 : String := "kustomize.toolkit.fluxcd.io/v1"

/-- A standard Kustomize apiVersion string. -/
def stdApiV1 : String := "kustomize.config.k8s.io/v1beta1"

/-- A Flux CR whose spec.path is an absolute but non-normalized path. -/
def fluxTextC1 : String :=
  "apiVersion: kustomize.toolkit.fluxcd.io/v1\nkind: Kustomization\nspec:\n  path: /w//a.yaml"

/-- The parse of `fluxTextC1`. -/
def fluxDocC1 : Yaml :=
  .obj [("apiVersion", .str fluxApiV1), ("kind", .str "Kustomization"),
        ("spec", .obj [("path", .str "/w//a.yaml")])]

/-- Workspace with one Flux CR carrying an absolute non-normalized spec.path
to an existing file. -/
def envC1 : Env where
  files := ["/w/app.yaml", "/w/a.yaml"]
  dirs := ["/w"]
  workspaceRoot := "/w"
  gitRootOf := fun _ => some "/w"
  content := fun p => if p = "/w/app.yaml" then fluxTextC1 else ""
  load := fun s => if s = fluxTextC1 then some fluxDocC1 else none
  yamlFiles := ["/w/app.yaml"]

/-- A minimal standard kustomization document text. -/
def stdTextC2 : String :=
  "apiVersion: kustomize.config.k8s.io/v1beta1\nkind: Kustomization"

/-- The parse of `stdTextC2`. -/
def stdDocC2 : Yaml :=
  .obj [("apiVersion", .str stdApiV1), ("kind", .str "Kustomization")]

/-- Workspace with one standard kustomization file. -/
def envC2 : Env where
  files := ["/w/kustomization.yaml"]
  dirs := ["/w"]
  workspaceRoot := "/w"
  gitRootOf := fun _ => some "/w"
  content := fun p => if p = "/w/kustomization.yaml" then stdTextC2 else ""
  load := fun s => if s = stdTextC2 then some stdDocC2 else none
  yamlFiles := ["/w/kustomization.yaml"]

/-- The spec's worked resolution example: a Flux CR deep inside the
repository whose spec.path is `./infra/base`. -/
def fluxTextRepo : String :=
  "apiVersion: kustomize.toolkit.fluxcd.io/v1\nkind: Kustomization\nspec:\n  path: ./infra/base"

/-- The parse of `fluxTextRepo`. -/
def fluxDocRepo : Yaml :=
  .obj [("apiVersion", .str fluxApiV1), ("kind", .str "Kustomization"),
        ("spec", .obj [("path", .str "./infra/base")])]

/-- Repository rooted at /repo with the Flux CR at /repo/clusters/prod. -/
def envRepo : Env where
  files := ["/repo/clusters/prod/app.yaml", "/repo/infra/base/kustomization.yaml"]
  dirs := ["/repo", "/repo/clusters", "/repo/clusters/prod", "/repo/infra", "/repo/infra/base"]
  workspaceRoot := "/repo"
  gitRootOf := fun d => if d = "/repo/clusters/prod" then some "/repo" else none
  content := fun p => if p = "/repo/clusters/prod/app.yaml" then fluxTextRepo else ""
  load := fun s => if s = fluxTextRepo then some fluxDocRepo else none
  yamlFiles := ["/repo/clusters/prod/app.yaml"]

/-- A Flux CR whose patch entry names an existing directory that contains a
kustomization.yaml. -/
def fluxTextC3 : String :=
  "apiVersion: kustomize.toolkit.fluxcd.io/v1\nkind: Kustomization\nspec:\n  patches:\n    - pdir"

/-- The parse of `fluxTextC3`. -/
def fluxDocC3 : Yaml :=
  .obj [("apiVersion", .str fluxApiV1), ("kind", .str "Kustomization"),
        ("spec", .obj [("patches", .arr [.str "pdir"])])]

/-- Workspace for the flux-patch-to-directory case. -/
def envC3 : Env where
  files := ["/w/app.yaml", "/w/pdir/kustomization.yaml"]
  dirs := ["/w", "/w/pdir"]
  workspaceRoot := "/w"
  gitRootOf := fun _ => some "/w"
  content := fun p => if p = "/w/app.yaml" then fluxTextC3 else ""
  load := fun s => if s = fluxTextC3 then some fluxDocC3 else none
  yamlFiles := ["/w/app.yaml"]

/-- A Flux CR document with no spec at all. -/
def fluxTextC4 : String :=
  "apiVersion: kustomize.toolkit.fluxcd.io/v1\nkind: Kustomization"

/-- The parse of `fluxTextC4`. -/
def fluxDocC4 : Yaml :=
  .obj [("apiVersion", .str fluxApiV1), ("kind", .str "Kustomization")]

/-- Workspace with a Flux file at /w/app.yaml and two existing patch files. -/
def envC4 : Env where
  files := ["/w/app.yaml", "/w/p1.yaml", "/w/p2.yaml"]
  dirs := ["/w"]
  workspaceRoot := "/w"
  gitRootOf := fun _ => some "/w"
  content := fun p => if p = "/w/app.yaml" then fluxTextC4 else ""
  load := fun s => if s = fluxTextC4 then some fluxDocC4 else none
  yamlFiles := ["/w/app.yaml"]

/-- A patch object with a path member and a target selector. -/
def pfC4 : List (String × Yaml) :=
  [("path", .str "p2.yaml"), ("target", .obj [("kind", .str "Deployment")])]

/-- An inline patch object with no path member. -/
def qfC4 : List (String × Yaml) :=
  [("patch", .str "- op: remove")]

/-- The three-shape patches array of the spec's polymorphism test. -/
def patchesC4 : List Yaml :=
  [.str "p1.yaml", .obj pfC4, .obj qfC4]

/-- A kustomization document carrying the three-shape patches array. -/
def docC4 : Yaml := .obj [("patches", .arr patchesC4)]

/-- A mapping with a non-Kustomize apiVersion but two characteristic Kustomize
fields. -/
def docC5Bad : Yaml :=
  .obj [("apiVersion", .str "apps/v1"), ("resources", .arr []), ("bases", .arr [])]

/-- A modern standard kustomization mapping. -/
def docC5Good : Yaml :=
  .obj [("apiVersion", .str stdApiV1), ("kind", .str "Kustomization")]

/-- The parse of the first document of `textC9`. -/
def docC9 : Yaml := .obj [("a", .num 1)]

/-- A js-yaml model for `textC9`: the first document parses to a mapping, the
second to a plain scalar string. -/
def loadC9 : String → Option Yaml := fun s =>
  if s = "a: 1" then some docC9
  else if s = "plain" then some (.str "plain")
  else none

/-- A two-document stream whose second document is a well-formed scalar. -/
def textC9 : String := "a: 1\n---\nplain"

/-- A document that is simultaneously a Flux Kustomization (by apiVersion and
kind) and a legacy standard kustomization (two characteristic fields), with
no spec. -/
def dualTextC10 : String :=
  "apiVersion: kustomize.toolkit.fluxcd.io/v1\nkind: Kustomization\nresources:\n  - a.yaml\nbases:\n  - b"

/-- The parse of `dualTextC10`. -/
def dualDocC10 : Yaml :=
  .obj [("apiVersion", .str fluxApiV1), ("kind", .str "Kustomization"),
        ("resources", .arr [.str "a.yaml"]), ("bases", .arr [.str "b"])]

/-- Workspace containing only the dual-classified spec-less document. -/
def envC10 : Env where
  files := ["/w/app.yaml"]
  dirs := ["/w"]
  workspaceRoot := "/w"
  gitRootOf := fun _ => some "/w"
  content := fun p => if p = "/w/app.yaml" then dualTextC10 else ""
  load := fun s => if s = dualTextC10 then some dualDocC10 else none
  yamlFiles := ["/w/app.yaml"]

/-- The spec's base/overlay scenario: a base kustomization with two resources
and an overlay whose bases entry names the base directory. -/
def baseTextScen : String :=
  "apiVersion: kustomize.config.k8s.io/v1beta1\nkind: Kustomization\nresources:\n  - deployment.yaml\n  - service.yaml"

/-- The parse of `baseTextScen`. -/
def baseDocScen : Yaml :=
  .obj [("apiVersion", .str stdApiV1), ("kind", .str "Kustomization"),
        ("resources", .arr [.str "deployment.yaml", .str "service.yaml"])]

/-- The overlay kustomization text. -/
def overlayTextScen : String :=
  "apiVersion: kustomize.config.k8s.io/v1beta1\nkind: Kustomization\nbases:\n  - ../../base"

/-- The parse of `overlayTextScen`. -/
def overlayDocScen : Yaml :=
  .obj [("apiVersion", .str stdApiV1), ("kind", .str "Kustomization"),
        ("bases", .arr [.str "../../base"])]

/-- The base/overlay workspace. -/
def envScen : Env where
  files := ["/w/base/kustomization.yaml", "/w/overlays/prod/kustomization.yaml",
            "/w/base/deployment.yaml", "/w/base/service.yaml"]
  dirs := ["/w", "/w/base", "/w/overlays", "/w/overlays/prod"]
  workspaceRoot := "/w"
  gitRootOf := fun _ => some "/w"
  content := fun p =>
    if p = "/w/base/kustomization.yaml" then baseTextScen
    else if p = "/w/overlays/prod/kustomization.yaml" then overlayTextScen
    else ""
  load := fun s =>
    if s = baseTextScen then some baseDocScen
    else if s = overlayTextScen then some overlayDocScen
    else none
  yamlFiles := ["/w/base/kustomization.yaml", "/w/overlays/prod/kustomization.yaml"]

/-! ## Association-list lemmas -/

theorem getA_setA_self (m : List (String × α)) (k : String) (v : α) :
    getA (setA m k v) k = some v := by
  induction m with
  | nil => simp [setA, getA]
  | cons kv rest ih =>
      obtain ⟨k0, v0⟩ := kv
      by_cases h : k0 = k
      · simp [setA, h, getA]
      · simp [setA, h, getA, ih]

theorem getA_setA_ne (m : List (String × α)) (k k2 : String) (v : α) (h : k2 ≠ k) :
    getA (setA m k v) k2 = getA m k2 := by
  induction m with
  | nil => simp [setA, getA, Ne.symm h]
  | cons kv rest ih =>
      obtain ⟨k0, v0⟩ := kv
      by_cases h0 : k0 = k
      · subst h0
        simp [setA, getA, Ne.symm h]
      · simp [setA, h0, getA, ih]

/-- findGitRoot is git-root discovery on the file's directory. -/
theorem findGitRoot_eq (env : Env) (p : String) :
    findGitRoot env p = gitRootValue env (dirname p) := rfl

/-! ## C2 — resolution regime split -/

/-- C2 (amended): resolveReference(B, r) returns r unchanged when r is
absolute and B is a Flux Kustomization file; when B is Flux and r relative it
is the join of the git repository root of B's directory (workspace root on
discovery failure) with r after stripping a leading `./`; when B is a
standard kustomization it is the join of B's own directory with r, which for
an absolute r is its normalized form (not necessarily r itself). -/
theorem c2_resolution_regime (env : Env) (basePath r : String) :
    (isFluxKustomizationFile env basePath = true → pathIsAbsolute r = true →
      resolveReference env basePath r = r) ∧
    (isFluxKustomizationFile env basePath = true → pathIsAbsolute r = false →
      resolveReference env basePath r =
        pathResolve (gitRootValue env (dirname basePath))
          (if strStartsWith r "./" then strDrop r 2 else r)) ∧
    (isFluxKustomizationFile env basePath = false →
      resolveReference env basePath r = pathResolve (dirname basePath) r) ∧
    (pathIsAbsolute r = true →
      pathResolve (dirname basePath) r = pathNormalize r) := by
  refine ⟨?_, ?_, ?_, ?_⟩
  · intro hf ha
    simp [resolveReference, hf, ha]
  · intro hf ha
    simp [resolveReference, hf, ha, findGitRoot_eq]
  · intro hf
    simp [resolveReference, hf]
  · intro ha
    simp [pathResolve, pathNormalize, ha]

/-- Witness for C2 at the spec's worked example: the Flux file at
/repo/clusters/prod/app.yaml with reference ./infra/base resolves to
/repo/infra/base, via the Flux/relative branch of the theorem. -/
theorem c2_witness :
    resolveReference envRepo "/repo/clusters/prod/app.yaml" "./infra/base" =
      "/repo/infra/base" := by
  have h := (c2_resolution_regime envRepo "/repo/clusters/prod/app.yaml" "./infra/base").2.1
    (by rfl) (by rfl)
  rw [h]
  rfl

/-- Counterexample to C2 as stated: for a standard referencing file, an
absolute but non-normalized reference is not returned unchanged. -/
theorem c2_counterexample :
    pathIsAbsolute "/a/./b" = true ∧
    isFluxKustomizationFile envC2 "/w/kustomization.yaml" = false ∧
    resolveReference envC2 "/w/kustomization.yaml" "/a/./b" ≠ "/a/./b" := by
  refine ⟨rfl, rfl, ?_⟩
  intro h
  have h2 : resolveReference envC2 "/w/kustomization.yaml" "/a/./b" = "/a/b" := rfl
  rw [h2] at h
  exact absurd h (by decide)

/-! ## C4 — patch polymorphism -/

/-- When no patch entry's extraction throws, the flux patch loop returns all
entries' gated resolutions, in order. -/
theorem fluxPatchRefsE_ok (env : Env) (f : String) (l : List Yaml)
    (h : ∀ y ∈ l, patchRawOfE y ≠ .error ()) :
    fluxPatchRefsE env f l = .ok (l.filterMap (fun y =>
      match patchRawOfE y with
      | .ok (some pp) =>
          if fileExists env (resolveReference env f pp) then
            some (resolveReference env f pp)
          else none
      | _ => none)) := by
  induction l with
  | nil => rfl
  | cons patch rest ih =>
      have hh := h patch (by simp)
      have htail := ih (fun y hm => h y (by simp [hm]))
      cases hp : patchRawOfE patch with
      | error e => cases e; exact absurd hp hh
      | ok po =>
          cases po with
          | none => simp [fluxPatchRefsE, hp, htail, Bind.bind, Except.bind, Pure.pure, Except.pure]
          | some pp =>
              by_cases hf : fileExists env (resolveReference env f pp) <;>
                simp [fluxPatchRefsE, hp, htail, hf, Bind.bind, Except.bind, Pure.pure, Except.pure]

/-- C4: for every kustomization document whose patches array consists of a
string entry (a nonempty path), an object entry carrying a nonempty string
path member, and an inline-patch object entry with no path member — in any
order — reference extraction yields exactly the references for the string
entry and for the object's path member and nothing for the inline entry: the
standard-side raw extraction is a permutation of [s1, s2], the flux-side
patch loop raises no error, and when both targets resolve to existing files
it resolves exactly those two references. -/
theorem c4_patch_polymorphism (s1 s2 : String) (pf qf : List (String × Yaml))
    (hs1 : s1 ≠ "") (hs2 : s2 ≠ "")
    (hpath : (Yaml.obj pf).get "path" = some (.str s2))
    (hnopath : (Yaml.obj qf).get "path" = none)
    (l : List Yaml) (hperm : l.Perm [Yaml.str s1, Yaml.obj pf, Yaml.obj qf])
    (doc : Yaml) (hdoc : doc.get "patches" = some (.arr l)) :
    ((arrField doc "patches").filterMap rawRefOf).Perm [s1, s2] ∧
    (∀ env f, ∃ out, fluxPatchRefsE env f l = .ok out) ∧
    (∀ env f, fileExists env (resolveReference env f s1) = true →
      fileExists env (resolveReference env f s2) = true →
      ∃ out, fluxPatchRefsE env f l = .ok out ∧
        out.Perm [resolveReference env f s1, resolveReference env f s2]) := by
  have hraw1 : patchRawOfE (Yaml.str s1) = .ok (some s1) := by
    simp [patchRawOfE, hs1]
  have hraw2 : patchRawOfE (Yaml.obj pf) = .ok (some s2) := by
    simp [patchRawOfE, Yaml.isObjLike, hpath, Yaml.truthy, hs2]
  have hraw3 : patchRawOfE (Yaml.obj qf) = .ok none := by
    simp [patchRawOfE, Yaml.isObjLike, hnopath]
  have noerr : ∀ y ∈ l, patchRawOfE y ≠ .error () := by
    intro y hy
    have hb : y ∈ [Yaml.str s1, Yaml.obj pf, Yaml.obj qf] := hperm.mem_iff.mp hy
    simp at hb
    rcases hb with rfl | rfl | rfl
    · simp [hraw1]
    · simp [hraw2]
    · simp [hraw3]
  have harr : arrField doc "patches" = l := by
    unfold arrField
    rw [hdoc]
  refine ⟨?_, ?_, ?_⟩
  · rw [harr]
    have hbase : ([Yaml.str s1, Yaml.obj pf, Yaml.obj qf].filterMap rawRefOf) = [s1, s2] := by
      simp [List.filterMap, rawRefOf, Yaml.isObjLike, hpath, hnopath, hs2]
    calc (l.filterMap rawRefOf).Perm ([Yaml.str s1, Yaml.obj pf, Yaml.obj qf].filterMap rawRefOf) :=
          hperm.filterMap rawRefOf
      _ = [s1, s2] := hbase
  · intro env f
    exact ⟨_, fluxPatchRefsE_ok env f l noerr⟩
  · intro env f he1 he2
    refine ⟨_, fluxPatchRefsE_ok env f l noerr, ?_⟩
    have hbase : ([Yaml.str s1, Yaml.obj pf, Yaml.obj qf].filterMap (fun y =>
        match patchRawOfE y with
        | .ok (some pp) =>
            if fileExists env (resolveReference env f pp) then
              some (resolveReference env f pp)
            else none
        | _ => none)) = [resolveReference env f s1, resolveReference env f s2] := by
      simp [List.filterMap, hraw1, hraw2, hraw3, he1, he2]
    have hp := hperm.filterMap (fun y =>
        match patchRawOfE y with
        | .ok (some pp) =>
            if fileExists env (resolveReference env f pp) then
              some (resolveReference env f pp)
            else none
        | _ => none)
    rw [hbase] at hp
    exact hp

/-- Witness for C4 at the spec's example array
[p1.yaml, object-with-path-p2.yaml, inline patch]. -/
theorem c4_witness :
    ((arrField docC4 "patches").filterMap rawRefOf).Perm ["p1.yaml", "p2.yaml"] ∧
    (∃ out, fluxPatchRefsE envC4 "/w/app.yaml" patchesC4 = .ok out ∧
      out.Perm ["/w/p1.yaml", "/w/p2.yaml"]) := by
  have h := c4_patch_polymorphism "p1.yaml" "p2.yaml" pfC4 qfC4 (by decide) (by decide)
    (by rfl) (by rfl) patchesC4 (List.Perm.refl _) docC4 (by rfl)
  refine ⟨h.1, ?_⟩
  obtain ⟨out, ho, hp⟩ := h.2.2 envC4 "/w/app.yaml" (by rfl) (by rfl)
  refine ⟨out, ho, ?_⟩
  have e1 : resolveReference envC4 "/w/app.yaml" "p1.yaml" = "/w/p1.yaml" := rfl
  have e2 : resolveReference envC4 "/w/app.yaml" "p2.yaml" = "/w/p2.yaml" := rfl
  rw [e1, e2] at hp
  exact hp

/-! ## C5 — standard-document classification -/

/-- C5 (amended): for every parsed YAML mapping whose apiVersion field, if
present, is a string or falsy, isStandardKustomizationDocument returns true
iff the apiVersion is a truthy string starting with `kustomize.config.k8s.io/`
and kind equals Kustomization, OR the apiVersion does not match that prefix
test (absent, falsy, or different prefix — not only absent) and at least two
of the eleven characteristic field names are present. -/
theorem c5_standard_classification (doc : Yaml) (hobj : doc.isObjLike = true)
    (hsafe : apiVersionStringOrAbsent doc) :
    isStandardKustomizationDocumentE doc = .ok (standardDocClaimAmended doc) := by
  unfold isStandardKustomizationDocumentE standardDocClaimAmended apiPrefixMatch
  rw [hobj]
  cases hv : doc.get "apiVersion" with
  | none => simp
  | some v =>
      cases v with
      | str s =>
          by_cases hs : s ≠ "" && strStartsWith s "kustomize.config.k8s.io/"
          · simp only [hs, if_true, Bool.true_and, Bool.not_true, Bool.false_and,
              Bool.or_false]
            unfold kindIsKustomization
            simp
          · simp only [hs, if_false, Bool.false_and, Bool.not_false, Bool.true_and,
              Bool.false_or]
            simp
      | num n =>
          rcases hsafe _ hv with ⟨s, hcontra⟩ | htr
          · exact absurd hcontra (by simp)
          · simp [Yaml.truthy] at htr
            simp [htr, Yaml.truthy]
      | boolean b =>
          rcases hsafe _ hv with ⟨s, hcontra⟩ | htr
          · exact absurd hcontra (by simp)
          · simp [Yaml.truthy] at htr
            simp [htr, Yaml.truthy]
      | nullv => simp [Yaml.truthy]
      | arr items =>
          rcases hsafe _ hv with ⟨s, hcontra⟩ | htr
          · exact absurd hcontra (by simp)
          · simp [Yaml.truthy] at htr
      | obj fields =>
          rcases hsafe _ hv with ⟨s, hcontra⟩ | htr
          · exact absurd hcontra (by simp)
          · simp [Yaml.truthy] at htr

/-- Witness for C5 at a modern standard kustomization document. -/
theorem c5_witness :
    isStandardKustomizationDocumentE docC5Good = .ok (standardDocClaimAmended docC5Good) ∧
    standardDocClaimAmended docC5Good = true := by
  constructor
  · exact c5_standard_classification docC5Good (by rfl)
      (by
        intro v h
        have hv : docC5Good.get "apiVersion" = some (Yaml.str stdApiV1) := rfl
        rw [hv] at h
        injection h with h2
        exact Or.inl ⟨stdApiV1, h2.symm⟩)
  · rfl

/-- Counterexample to C5 as stated: a mapping with apiVersion apps/v1 (present
but not matching the prefix) and two characteristic fields is classified as a
standard kustomization by the source, while the claim's formula says it is
not. -/
theorem c5_counterexample :
    isStandardKustomizationDocumentE docC5Bad = .ok true ∧
    standardDocClaimSpec docC5Bad = false := ⟨rfl, rfl⟩

/-! ## C6 — cache trust (spec-modelled) -/

/-- C6: two consecutive exists() calls on the same path with no intervening
invalidate/validateAndRefresh/clearAll return the same boolean even if the
underlying filesystem changes arbitrarily between them (the two FsView
snapshots are unrelated), and the second call — a cache hit — performs no
filesystem access.  Modelled from the spec, since the cache implementation is
not under src. -/
theorem c6_cache_trust (v1 v2 : FsView) (c : FsCache) (p : String) :
    (cacheExists v2 (cacheExists v1 c p).2.1 p).1 = (cacheExists v1 c p).1 ∧
    (cacheExists v2 (cacheExists v1 c p).2.1 p).2.2 = 0 := by
  unfold cacheExists
  cases h : getA c.entries (pathNormalize p) with
  | some e => simp [h]
  | none =>
      by_cases hf : v1.fileExistsNow (pathNormalize p) <;>
        simp [h, hf, getA_setA_self]

/-! ## C7 — mass-change fallback (code bug) -/

/-- C7 is violated by the code: after 60 change events inside the detection
window (gaps under the debounce delay), the cache is cleared once and a full
rebuild is scheduled once at event 51, but events 52..60 re-enter the
below-threshold branch (the counter was reset) and their debounced
incremental updates cancel the pending rebuild through the shared scanTimeout
timer — so the task left to execute when the burst ends is a single
incremental update for the last file, not the full rebuild the claim (and
the repository's PERFORMANCE.md) promise. -/
theorem c7_mass_change_divergence :
    ((List.replicate 60 "f").foldl handleFileChange initialWatcherState).scanTimeout =
      some (ScheduledTask.incrementalUpdate "f") ∧
    ((List.replicate 60 "f").foldl handleFileChange initialWatcherState).cacheClearCount = 1 ∧
    ((List.replicate 60 "f").foldl handleFileChange initialWatcherState).rebuildsScheduled = 1 ∧
    ((List.replicate 60 "f").foldl handleFileChange initialWatcherState).scanTimeout ≠
      some ScheduledTask.fullRebuild := by
  refine ⟨rfl, rfl, rfl, ?_⟩
  intro h
  have h0 : ((List.replicate 60 "f").foldl handleFileChange initialWatcherState).scanTimeout =
      some (ScheduledTask.incrementalUpdate "f") := rfl
  rw [h0] at h
  exact absurd h (by decide)

/-! ## C9 — per-document parse-error isolation -/

/-- C9 (amended): for every input text and every js-yaml behavior,
parseMultipleYamlDocuments returns, in order, exactly the documents of the
`---`-separated stream that are non-empty after trimming, parse successfully,
and whose parsed value is an object or array (well-formed scalar- or
null-valued documents are dropped too); a malformed document is dropped
without affecting its siblings and nothing escapes as an exception (the
function is total). -/
theorem c9_parse_isolation (load : String → Option Yaml) (text : String) :
    parseMultipleYamlDocuments load text = parseMultipleYamlDocumentsSpecAmended load text := by
  unfold parseMultipleYamlDocuments parseMultipleYamlDocumentsSpecAmended
  congr 1
  funext docText
  by_cases ht : strTrim docText = ""
  · simp [ht]
  · cases hl : load (strTrim docText) <;> simp [ht, hl, Option.bind]

/-- Counterexample to C9 as stated: a stream whose second document is the
well-formed, non-empty scalar document `plain` — the source drops it (it is
not an object), so the output is not the list of parses of all well-formed
non-empty documents. -/
theorem c9_counterexample :
    parseMultipleYamlDocuments loadC9 textC9 ≠ parseMultipleYamlDocumentsSpec loadC9 textC9 := by
  intro h
  have h1 : (parseMultipleYamlDocuments loadC9 textC9).length = 1 := rfl
  rw [h] at h1
  have h2 : (parseMultipleYamlDocumentsSpec loadC9 textC9).length = 2 := rfl
  rw [h2] at h1
  exact absurd h1 (by decide)

/-! ## C10 — Flux document without spec -/

/-- The flux loop yields nothing when every flux document lacks spec. -/
theorem fluxResultsE_all_specless (env : Env) (p : String) (l : List Yaml)
    (h : ∀ d ∈ l, d.get "spec" = none) :
    fluxResultsE env p l = .ok [] := by
  induction l with
  | nil => rfl
  | cons d rest ih =>
      have hd := h d (by simp)
      have htail := ih (fun d2 hm => h d2 (by simp [hm]))
      unfold fluxResultsE parseFluxKustomizationE
      rw [hd, htail]
      rfl

/-- C10 (amended): a Flux Kustomization document lacking a spec field makes
parseFluxKustomization return null, so when every Flux document of a file
lacks spec the file's flux-resolved references are empty and
parseKustomizationFile contributes no KustomizationFile through the Flux
pass — only standard-pass results remain (a document that also matches the
legacy standard heuristic still yields one there); no error is raised. -/
theorem c10_spec_less_flux (env : Env) (p : String) (doc : Yaml)
    (hdoc : doc.get "spec" = none)
    (hall : ∀ d ∈ fluxDocsOf env p, d.get "spec" = none) :
    parseFluxKustomizationE env p doc = .ok none ∧
    getFluxResolvedReferences env p = [] ∧
    parseKustomizationFile env p =
      (if fileExists env p then
        match standardDocsOfE env p with
        | .ok sd => sd.map (parseStandardKustomization p)
        | .error _ => []
       else []) := by
  refine ⟨?_, ?_, ?_⟩
  · unfold parseFluxKustomizationE
    rw [hdoc]
  · unfold getFluxResolvedReferences
    by_cases hex : fileExists env p
    · by_cases hemp : (fluxDocsOf env p).isEmpty
      · simp [hex, hemp]
      · simp [hex, hemp, fluxResultsE_all_specless env p _ hall]
    · simp [hex]
  · unfold parseKustomizationFile
    by_cases hex : fileExists env p
    · cases hsd : standardDocsOfE env p with
      | error e => simp [hex, hsd]
      | ok sd => simp [hex, hsd, fluxResultsE_all_specless env p _ hall]
    · simp [hex]

/-- Witness for C10 at a workspace whose only file is a Flux CR without
spec: no flux KustomizationFile, no references, no error. -/
theorem c10_witness :
    parseFluxKustomizationE envC4 "/w/app.yaml" fluxDocC4 = .ok none ∧
    getFluxResolvedReferences envC4 "/w/app.yaml" = [] := by
  have h := c10_spec_less_flux envC4 "/w/app.yaml" fluxDocC4 (by rfl)
    (by
      intro d hd
      have hfd : fluxDocsOf envC4 "/w/app.yaml" = [fluxDocC4] := rfl
      rw [hfd] at hd
      simp at hd
      subst hd
      rfl)
  exact ⟨h.1, h.2.1⟩

/-- Counterexample to C10 as stated: a file whose (only) Flux Kustomization
document lacks spec but also carries two characteristic legacy fields — the
claim says parseKustomizationFile includes no KustomizationFile for that
document, yet the standard pass includes one. -/
theorem c10_counterexample :
    dualDocC10.get "spec" = none ∧
    isFluxKustomizationDocument dualDocC10 = true ∧
    (parseKustomizationFile envC10 "/w/app.yaml").length = 1 := ⟨rfl, rfl, rfl⟩

/-! ## C3 — directory expansion and existence gating: helper lemmas -/

/-- On a well-formed filesystem a directory is not a regular file. -/
theorem wf_not_file_of_dir (env : Env) (hwf : env.wfB = true) (p : String)
    (hd : isDirectory env p = true) : fileExists env p = false := by
  cases hfe : fileExists env p
  · rfl
  · exfalso
    unfold fileExists at hfe
    unfold isDirectory at hd
    have hmem : pathNormalize p ∈ env.files := by
      simpa using hfe
    have hall := (List.all_eq_true.mp hwf) _ hmem
    simp at hall
    exact hall (by simpa using hd)

/-- The addReferences entry processing equals the claim's final-target gate. -/
theorem resolveOne_eq_gate (env : Env) (f : String) (y : Yaml) (r : String)
    (hr : rawRefOf y = some r) :
    resolveOne env f y =
      (if fileExists env (finalTarget env f r) then some (finalTarget env f r) else none) := by
  unfold resolveOne finalTarget
  rw [hr]
  by_cases hd : isDirectory env (resolveReference env f r)
  · by_cases h1 : fileExists env (pathJoin (resolveReference env f r) "kustomization.yaml")
    · simp [hd, h1]
    · by_cases h2 : fileExists env (pathJoin (resolveReference env f r) "kustomization.yml")
      · simp [hd, h1, h2]
      · simp [hd, h1, h2]
  · simp [hd]

/-- A kept addReferences entry is an existing file. -/
theorem resolveOne_exists (env : Env) (f : String) (y : Yaml) (t : String)
    (h : resolveOne env f y = some t) : fileExists env t = true := by
  cases hr : rawRefOf y with
  | none => unfold resolveOne at h; rw [hr] at h; cases h
  | some r =>
      rw [resolveOne_eq_gate env f y r hr] at h
      by_cases hf : fileExists env (finalTarget env f r)
      · rw [if_pos hf] at h
        injection h with h2
        rw [← h2]
        exact hf
      · rw [if_neg hf] at h
        cases h

/-- The flux spec.path handling equals the claim's final-target gate (on a
well-formed filesystem). -/
theorem fluxSpecPathRefs_eq_gate (env : Env) (hwf : env.wfB = true) (f : String)
    (spec : Yaml) (s : String) (hs : spec.get "path" = some (.str s)) (hs2 : s ≠ "") :
    fluxSpecPathRefs env f spec =
      (if fileExists env (finalTarget env f s) then [finalTarget env f s] else []) := by
  unfold fluxSpecPathRefs finalTarget
  rw [hs]
  by_cases hd : isDirectory env (resolveReference env f s)
  · by_cases h1 : fileExists env (pathJoin (resolveReference env f s) "kustomization.yaml")
    · simp [hd, h1, hs2]
    · by_cases h2 : fileExists env (pathJoin (resolveReference env f s) "kustomization.yml")
      · simp [hd, h1, h2, hs2]
      · have hnf := wf_not_file_of_dir env hwf (resolveReference env f s) hd
        simp [hd, h1, h2, hs2, hnf]
  · simp [hd, hs2]

/-- Every reference the flux spec.path handling keeps is an existing file. -/
theorem fluxSpecPathRefs_exists (env : Env) (f : String) (spec : Yaml) :
    ∀ T ∈ fluxSpecPathRefs env f spec, fileExists env T = true := by
  intro T hT
  unfold fluxSpecPathRefs at hT
  cases hs : spec.get "path" with
  | none => rw [hs] at hT; cases hT
  | some v =>
      rw [hs] at hT
      cases v with
      | str s =>
          by_cases hs2 : s = ""
          · simp [hs2] at hT
          · simp only [hs2, if_neg, ne_eq, not_false_eq_true, if_true] at hT
            by_cases hd : isDirectory env (resolveReference env f s)
            · by_cases h1 :
                  fileExists env (pathJoin (resolveReference env f s) "kustomization.yaml")
              · simp [hd, h1] at hT
                rw [hT]
                exact h1
              · by_cases h2 :
                    fileExists env (pathJoin (resolveReference env f s) "kustomization.yml")
                · simp [hd, h1, h2] at hT
                  rw [hT]
                  exact h2
                · simp [hd, h1, h2] at hT
            · by_cases h3 : fileExists env (resolveReference env f s)
              · simp [hd, h3] at hT
                rw [hT]
                exact h3
              · simp [hd, h3] at hT
      | num n => cases hT
      | boolean b => cases hT
      | nullv => cases hT
      | arr items => cases hT
      | obj fields => cases hT

/-- Every reference the flux patch loop keeps is an existing file. -/
theorem fluxPatchRefsE_exists (env : Env) (f : String) (l : List Yaml) (out : List String)
    (h : fluxPatchRefsE env f l = .ok out) : ∀ T ∈ out, fileExists env T = true := by
  induction l generalizing out with
  | nil =>
      unfold fluxPatchRefsE at h
      injection h with h2
      rw [← h2]
      intro T hT
      cases hT
  | cons patch rest ih =>
      unfold fluxPatchRefsE at h
      cases hp : patchRawOfE patch with
      | error e => rw [hp] at h; cases h
      | ok po =>
          rw [hp] at h
          cases htail : fluxPatchRefsE env f rest with
          | error e =>
              rw [htail] at h
              cases po <;> cases h
          | ok tail =>
              rw [htail] at h
              have ihtail := ih tail htail
              cases po with
              | none =>
                  have h2 : out = tail := by
                    injection h with h3
                    exact h3.symm
                  rw [h2]
                  exact ihtail
              | some pp =>
                  by_cases hf : fileExists env (resolveReference env f pp)
                  · simp only [Bind.bind, Except.bind, Pure.pure, Except.pure, hf, if_true] at h
                    injection h with h2
                    rw [← h2]
                    intro T hT
                    simp at hT
                    rcases hT with rfl | hT2
                    · exact hf
                    · exact ihtail T hT2
                  · simp only [Bind.bind, Except.bind, Pure.pure, Except.pure, hf] at h
                    simp at h
                    rw [← h]
                    exact ihtail

/-- Every reference a parsed flux document carries is an existing file. -/
theorem parseFluxE_refs_exists (env : Env) (f : String) (parsed : Yaml) (kf : KFile)
    (refs : List String) (h : parseFluxKustomizationE env f parsed = .ok (some (kf, refs))) :
    ∀ T ∈ refs, fileExists env T = true := by
  unfold parseFluxKustomizationE at h
  cases hs : parsed.get "spec" with
  | none => rw [hs] at h; cases h
  | some spec =>
      rw [hs] at h
      by_cases ht : spec.truthy
      · simp only [ht, Bool.not_true, Bool.false_eq_true, if_false] at h
        cases h1 : fluxPatchRefsE env f (arrField spec "patches") with
        | error e => simp [h1, Bind.bind, Except.bind] at h
        | ok r1 =>
            cases h2 : fluxPatchRefsE env f (arrField spec "patchesStrategicMerge") with
            | error e => simp [h1, h2, Bind.bind, Except.bind] at h
            | ok r2 =>
                cases h3 : fluxPatchRefsE env f (arrField spec "patchesJson6902") with
                | error e => simp [h1, h2, h3, Bind.bind, Except.bind] at h
                | ok r3 =>
                    simp only [h1, h2, h3, Bind.bind, Except.bind, Pure.pure,
                      Except.pure] at h
                    injection h with h4
                    injection h4 with h5
                    have hrefs : refs = fluxSpecPathRefs env f spec ++ r1 ++ r2 ++ r3 := by
                      have := congrArg Prod.snd h5
                      exact this.symm
                    rw [hrefs]
                    intro T hT
                    simp only [List.append_assoc, List.mem_append] at hT
                    rcases hT with hT | hT | hT | hT
                    · exact fluxSpecPathRefs_exists env f spec T hT
                    · exact fluxPatchRefsE_exists env f _ r1 h1 T hT
                    · exact fluxPatchRefsE_exists env f _ r2 h2 T hT
                    · exact fluxPatchRefsE_exists env f _ r3 h3 T hT
      · simp [ht] at h

/-- Every reference the flux loop keeps is an existing file. -/
theorem fluxResultsE_refs_exists (env : Env) (f : String) (l : List Yaml)
    (results : List (KFile × List String)) (h : fluxResultsE env f l = .ok results) :
    ∀ res ∈ results, ∀ T ∈ res.2, fileExists env T = true := by
  induction l generalizing results with
  | nil =>
      unfold fluxResultsE at h
      injection h with h2
      rw [← h2]
      intro res hres
      cases hres
  | cons doc rest ih =>
      unfold fluxResultsE at h
      cases hr : parseFluxKustomizationE env f doc with
      | error e => rw [hr] at h; cases h
      | ok r =>
          rw [hr] at h
          cases htail : fluxResultsE env f rest with
          | error e =>
              rw [htail] at h
              simp [Bind.bind, Except.bind] at h
          | ok tail =>
              rw [htail] at h
              have ihtail := ih tail htail
              cases r with
              | none =>
                  simp only [Bind.bind, Except.bind, Pure.pure, Except.pure] at h
                  injection h with h2
                  rw [← h2]
                  exact ihtail
              | some res0 =>
                  simp only [Bind.bind, Except.bind, Pure.pure, Except.pure] at h
                  injection h with h2
                  rw [← h2]
                  intro res hres
                  simp at hres
                  rcases hres with rfl | hres2
                  · obtain ⟨kf, refs⟩ := res
                    exact parseFluxE_refs_exists env f doc kf refs hr
                  · exact ihtail res hres2

/-- Every flux resolved reference of a file is an existing file. -/
theorem getFluxResolvedReferences_exists (env : Env) (f : String) :
    ∀ T ∈ getFluxResolvedReferences env f, fileExists env T = true := by
  intro T hT
  unfold getFluxResolvedReferences at hT
  by_cases hex : fileExists env f
  · rw [if_neg (by simp [hex])] at hT
    by_cases hemp : (fluxDocsOf env f).isEmpty
    · simp [hemp] at hT
    · rw [if_neg hemp] at hT
      cases hres : fluxResultsE env f (fluxDocsOf env f) with
      | error e => rw [hres] at hT; cases hT
      | ok results =>
          rw [hres] at hT
          simp only [List.mem_flatten, List.mem_map] at hT
          obtain ⟨refs, ⟨res, hres2, hrefl⟩, hT2⟩ := hT
          rw [← hrefl] at hT2
          exact fluxResultsE_refs_exists env f _ results hres res hres2 T hT2
  · simp [hex] at hT

/-- Every reference the standard-document loop keeps is an existing file. -/
theorem refsOfStandardDoc_exists (env : Env) (f : String) (k : KFile) :
    ∀ T ∈ refsOfStandardDoc env f k, fileExists env T = true := by
  intro T hT
  unfold refsOfStandardDoc at hT
  simp only [List.mem_append] at hT
  rcases hT with hT | hT
  · rw [List.mem_filterMap] at hT
    obtain ⟨y, _, hy⟩ := hT
    exact resolveOne_exists env f y T hy
  · rw [List.mem_filterMap] at hT
    obtain ⟨patch, _, hy⟩ := hT
    cases hp : patch.get "path" with
    | none => rw [hp] at hy; cases hy
    | some v =>
        rw [hp] at hy
        by_cases ht : v.truthy
        · simp only [ht, if_true] at hy
          exact resolveOne_exists env f v T hy
        · simp [ht] at hy

/-- Every reference buildReferenceMap computes for a file is an existing
file. -/
theorem fileRefsOf_exists (env : Env) (f : String) :
    ∀ T ∈ fileRefsOf env f, fileExists env T = true := by
  intro T hT
  unfold fileRefsOf at hT
  by_cases hflux : isFluxKustomizationFile env f
  · rw [if_pos hflux] at hT
    exact getFluxResolvedReferences_exists env f T hT
  · rw [if_neg hflux] at hT
    simp only [List.mem_flatten, List.mem_map] at hT
    obtain ⟨refs, ⟨k, _, hrefl⟩, hT2⟩ := hT
    rw [← hrefl] at hT2
    exact refsOfStandardDoc_exists env f k T hT2

/-! ## The index-symmetry invariant of buildReferenceMap -/

/-- addBack does not touch the forward map. -/
theorem addBack_fileReferences (isFlux : Bool) (fp : String) (rm : RefMap) (rp : String) :
    (addBack isFlux fp rm rp).fileReferences = rm.fileReferences := by
  simp only [addBack]
  by_cases h : ((getA rm.fileBackReferences (pathNormalize rp)).getD []).any
      (fun r => r.1 = fp)
  · simp [h]
  · simp [h]

/-- Buckets only grow through addBack. -/
theorem mem_bucketOf_addBack (isFlux : Bool) (fp : String) (rm : RefMap) (rp : String)
    (T : String) (e : String × RefType) (h : e ∈ bucketOf rm T) :
    e ∈ bucketOf (addBack isFlux fp rm rp) T := by
  simp only [addBack]
  by_cases hdup : ((getA rm.fileBackReferences (pathNormalize rp)).getD []).any
      (fun r => r.1 = fp)
  · simpa [hdup] using h
  · simp only [hdup, Bool.false_eq_true, if_false]
    unfold bucketOf at h ⊢
    by_cases hT : T = pathNormalize rp
    · subst hT
      rw [getA_setA_self]
      simp only [Option.getD_some]
      exact List.mem_append_left _ h
    · rw [getA_setA_ne _ _ _ _ hT]
      exact h

/-- After addBack, the inserted (or already present) entry for the
referencing file is in the target's bucket, provided any pre-existing entry
for that file carries the same kind tag. -/
theorem self_mem_bucketOf_addBack (isFlux : Bool) (fp : String) (rm : RefMap) (rp : String)
    (hOK : ∀ e ∈ bucketOf rm (pathNormalize rp), e.1 = fp →
      e.2 = (if isFlux then RefType.flux else RefType.k8s)) :
    (fp, if isFlux then RefType.flux else RefType.k8s) ∈
      bucketOf (addBack isFlux fp rm rp) (pathNormalize rp) := by
  simp only [addBack]
  by_cases hdup : ((getA rm.fileBackReferences (pathNormalize rp)).getD []).any
      (fun r => r.1 = fp)
  · simp only [hdup, if_true]
    rw [List.any_eq_true] at hdup
    obtain ⟨e, he, heq⟩ := hdup
    have heq2 : e.1 = fp := by simpa using heq
    have h2 := hOK e he heq2
    have he3 : e = (fp, if isFlux then RefType.flux else RefType.k8s) := by
      obtain ⟨e1, e2⟩ := e
      simp only at heq2 h2
      rw [heq2, h2]
    rw [← he3]
    exact he
  · simp only [hdup, Bool.false_eq_true, if_false]
    unfold bucketOf
    rw [getA_setA_self]
    simp

/-- addBack preserves the back-reference justification invariant, provided
the inserted target is a recorded forward reference of the inserting file. -/
theorem bwd_addBack (env : Env) (F : String) (rm : RefMap) (T0 : String)
    (hT0 : ∃ refsF, getA rm.fileReferences F = some refsF ∧ T0 ∈ refsF)
    (hbwd : ∀ T b, getA rm.fileBackReferences T = some b → ∀ e ∈ b,
      e.2 = kindOf env e.1 ∧
      ∃ refs0, getA rm.fileReferences e.1 = some refs0 ∧
        ∃ Tp, Tp ∈ refs0 ∧ pathNormalize Tp = T) :
    ∀ T b,
      getA (addBack (isFluxKustomizationFile env F) F rm T0).fileBackReferences T = some b →
      ∀ e ∈ b, e.2 = kindOf env e.1 ∧
        ∃ refs0,
          getA (addBack (isFluxKustomizationFile env F) F rm T0).fileReferences e.1 =
            some refs0 ∧
          ∃ Tp, Tp ∈ refs0 ∧ pathNormalize Tp = T := by
  intro T b hb e he
  rw [addBack_fileReferences]
  simp only [addBack] at hb
  by_cases hdup : ((getA rm.fileBackReferences (pathNormalize T0)).getD []).any
      (fun r => r.1 = F)
  · simp only [hdup, if_true] at hb
    exact hbwd T b hb e he
  · simp only [hdup, Bool.false_eq_true, if_false] at hb
    by_cases hT : T = pathNormalize T0
    · subst hT
      rw [getA_setA_self] at hb
      injection hb with hb2
      rw [← hb2] at he
      rcases List.mem_append.mp he with hold | hnew
      · cases hgb : getA rm.fileBackReferences (pathNormalize T0) with
        | none => rw [hgb] at hold; cases hold
        | some bOld =>
            rw [hgb] at hold
            simp only [Option.getD_some] at hold
            exact hbwd _ bOld hgb e hold
      · have he2 : e = (F, if isFluxKustomizationFile env F then RefType.flux
            else RefType.k8s) := by simpa using hnew
        subst he2
        refine ⟨rfl, ?_⟩
        obtain ⟨refsF, hgF, hTin⟩ := hT0
        exact ⟨refsF, hgF, T0, hTin, rfl⟩
    · rw [getA_setA_ne _ _ _ _ hT] at hb
      exact hbwd T b hb e he

/-- The back-reference fold of processFile establishes the invariant, given
the forward entry for the processed file is already stored and every target
of the remaining list is one of its recorded references. -/
theorem foldl_addBack_inv (env : Env) (F : String) (refs : List String)
    (hrefseq : refs = fileRefsOf env F) :
    ∀ (l : List String) (rm : RefMap),
    (∀ T, T ∈ l → T ∈ refs) →
    (∀ F0 refs0, getA rm.fileReferences F0 = some refs0 → refs0 = fileRefsOf env F0) →
    getA rm.fileReferences F = some refs →
    (∀ T, T ∈ refs → T ∈ l ∨ (F, kindOf env F) ∈ bucketOf rm (pathNormalize T)) →
    (∀ F0 refs0, F0 ≠ F → getA rm.fileReferences F0 = some refs0 →
      ∀ T ∈ refs0, (F0, kindOf env F0) ∈ bucketOf rm (pathNormalize T)) →
    (∀ T b, getA rm.fileBackReferences T = some b → ∀ e ∈ b,
      e.2 = kindOf env e.1 ∧
      ∃ refs0, getA rm.fileReferences e.1 = some refs0 ∧
        ∃ Tp, Tp ∈ refs0 ∧ pathNormalize Tp = T) →
    RefMapInv env (l.foldl (addBack (isFluxKustomizationFile env F) F) rm) := by
  intro l
  induction l with
  | nil =>
      intro rm hsub hrefsEq hgetF hdone hothers hbwd
      rw [List.foldl_nil]
      refine ⟨hrefsEq, ?_, hbwd⟩
      intro F0 refs0 hget T hT
      by_cases hF : F0 = F
      · subst hF
        rw [hgetF] at hget
        injection hget with h2
        subst h2
        rcases hdone T hT with hin | hmem
        · cases hin
        · exact hmem
      · exact hothers F0 refs0 hF hget T hT
  | cons T0 lrest ih =>
      intro rm hsub hrefsEq hgetF hdone hothers hbwd
      rw [List.foldl_cons]
      apply ih
      · intro T hT
        exact hsub T (by simp [hT])
      · intro F0 refs0 hget
        rw [addBack_fileReferences] at hget
        exact hrefsEq F0 refs0 hget
      · rw [addBack_fileReferences]
        exact hgetF
      · intro T hT
        rcases hdone T hT with hin | hmem
        · rcases List.mem_cons.mp hin with rfl | hin2
          · right
            have hOK : ∀ e ∈ bucketOf rm (pathNormalize T), e.1 = F →
                e.2 = (if isFluxKustomizationFile env F then RefType.flux
                  else RefType.k8s) := by
              intro e he h1
              unfold bucketOf at he
              cases hgb : getA rm.fileBackReferences (pathNormalize T) with
              | none => rw [hgb] at he; cases he
              | some bOld =>
                  rw [hgb] at he
                  simp only [Option.getD_some] at he
                  have h2 := (hbwd _ bOld hgb e he).1
                  rw [h1] at h2
                  exact h2
            exact self_mem_bucketOf_addBack (isFluxKustomizationFile env F) F rm T hOK
          · left
            exact hin2
        · right
          exact mem_bucketOf_addBack _ _ _ _ _ _ hmem
      · intro F0 refs0 hF hget T hT
        rw [addBack_fileReferences] at hget
        exact mem_bucketOf_addBack _ _ _ _ _ _ (hothers F0 refs0 hF hget T hT)
      · exact bwd_addBack env F rm T0 ⟨refs, hgetF, hsub T0 (by simp)⟩ hbwd

/-- processFile preserves the invariant. -/
theorem processFile_inv (env : Env) (rm : RefMap) (F : String) (h : RefMapInv env rm) :
    RefMapInv env (processFile env rm F) := by
  unfold processFile
  by_cases hks : (parseKustomizationFile env F).isEmpty
  · simpa [hks] using h
  · simp only [hks, Bool.false_eq_true, if_false]
    apply foldl_addBack_inv env F (fileRefsOf env F) rfl
    · intro T hT
      exact hT
    · intro F0 refs0 hget
      by_cases hF : F0 = F
      · subst hF
        rw [getA_setA_self] at hget
        injection hget with h2
        exact h2.symm
      · rw [getA_setA_ne _ _ _ _ hF] at hget
        exact h.refsEq F0 refs0 hget
    · exact getA_setA_self _ _ _
    · intro T hT
      left
      exact hT
    · intro F0 refs0 hF hget T hT
      rw [getA_setA_ne _ _ _ _ hF] at hget
      exact h.fwd F0 refs0 hget T hT
    · intro T b hb e he
      have h2 := h.bwd T b hb e he
      obtain ⟨hkind, refs0, hget0, Tp, hTp, hnorm⟩ := h2
      refine ⟨hkind, ?_⟩
      by_cases hF : e.1 = F
      · rw [hF]
        refine ⟨fileRefsOf env F, getA_setA_self _ _ _, Tp, ?_, hnorm⟩
        have h3 : refs0 = fileRefsOf env F := h.refsEq F refs0 (hF ▸ hget0)
        rw [← h3]
        exact hTp
      · refine ⟨refs0, ?_, Tp, hTp, hnorm⟩
        rw [getA_setA_ne _ _ _ _ hF]
        exact hget0

/-- The whole file loop preserves the invariant. -/
theorem foldl_processFile_inv (env : Env) (l : List String) (rm : RefMap)
    (h : RefMapInv env rm) : RefMapInv env (l.foldl (processFile env) rm) := by
  induction l generalizing rm with
  | nil => exact h
  | cons x xs ih =>
      rw [List.foldl_cons]
      exact ih _ (processFile_inv env rm x h)

/-- buildReferenceMap satisfies the index-symmetry invariant. -/
theorem buildReferenceMap_inv (env : Env) : RefMapInv env (buildReferenceMap env) := by
  unfold buildReferenceMap
  apply foldl_processFile_inv
  refine ⟨?_, ?_, ?_⟩
  · intro F refs hget
    cases hget
  · intro F refs hget
    cases hget
  · intro T b hget
    cases hget

/-! ## C1 — index symmetry -/

/-- C1 (amended): after buildReferenceMap completes, for every file F and
every target T in fileReferences[F], fileBackReferences[normalize(T)]
contains the entry {F, kind(F)} where kind(F) is flux for a Flux
Kustomization file and k8s otherwise; and conversely every entry {F, k} of
fileBackReferences[T] has k = kind(F) and is justified by some T' in
fileReferences[F] with normalize(T') = T — the maps are exact inverses up to
path normalization of the stored forward targets (not up to literal string
equality: the forward list stores the un-normalized resolved path). -/
theorem c1_index_symmetry (env : Env) :
    (∀ F refs, getA (buildReferenceMap env).fileReferences F = some refs →
      ∀ T ∈ refs,
        (F, kindOf env F) ∈ bucketOf (buildReferenceMap env) (pathNormalize T)) ∧
    (∀ T b, getA (buildReferenceMap env).fileBackReferences T = some b →
      ∀ e ∈ b, e.2 = kindOf env e.1 ∧
        ∃ refs, getA (buildReferenceMap env).fileReferences e.1 = some refs ∧
          ∃ Tp, Tp ∈ refs ∧ pathNormalize Tp = T) :=
  ⟨(buildReferenceMap_inv env).fwd, (buildReferenceMap_inv env).bwd⟩

/-- Witness for C1 on the base/overlay scenario: the overlay's forward
reference to the base kustomization is mirrored by a k8s-tagged
back-reference. -/
theorem c1_witness :
    ("/w/overlays/prod/kustomization.yaml", RefType.k8s) ∈
      bucketOf (buildReferenceMap envScen) (pathNormalize "/w/base/kustomization.yaml") := by
  have h := (c1_index_symmetry envScen).1 "/w/overlays/prod/kustomization.yaml"
    ["/w/base/kustomization.yaml"] (by rfl) "/w/base/kustomization.yaml" (by simp)
  have hk : kindOf envScen "/w/overlays/prod/kustomization.yaml" = RefType.k8s := rfl
  rw [hk] at h
  exact h

/-- Counterexample to C1 as stated: a Flux file whose absolute spec.path
`/w//a.yaml` is stored un-normalized in fileReferences while the
back-reference key is normalized — the entry {F, flux} is in
fileBackReferences[/w/a.yaml] but `/w/a.yaml` is not an element of
fileReferences[F]. -/
theorem c1_counterexample :
    getA (buildReferenceMap envC1).fileBackReferences "/w/a.yaml" =
      some [("/w/app.yaml", RefType.flux)] ∧
    getA (buildReferenceMap envC1).fileReferences "/w/app.yaml" = some ["/w//a.yaml"] ∧
    "/w/a.yaml" ∉ (["/w//a.yaml"] : List String) := by
  refine ⟨rfl, rfl, ?_⟩
  intro h
  simp at h

/-! ## C3 — directory expansion and existence gating -/

/-- C3 (amended): for every raw reference processed during buildReferenceMap,
existence gating holds as claimed — the reference is appended iff the final
target is an existing file, so non-existent targets never appear in
fileReferences — and directory expansion (an existing directory becomes the
kustomization.yaml inside it when that exists, otherwise the
kustomization.yml when that exists) applies to standard-kustomization
references and to the Flux spec.path, but not to Flux patch references, which
are gated on the resolved path itself with no expansion. -/
theorem c3_directory_expansion (env : Env) (hwf : env.wfB = true) (f : String)
    (y : Yaml) (r : String) (hr : rawRefOf y = some r)
    (spec : Yaml) (s : String) (hs : spec.get "path" = some (.str s)) (hs2 : s ≠ "")
    (pp : String) (hpp : pp ≠ "") :
    resolveOne env f y =
      (if fileExists env (finalTarget env f r) then some (finalTarget env f r) else none) ∧
    fluxSpecPathRefs env f spec =
      (if fileExists env (finalTarget env f s) then [finalTarget env f s] else []) ∧
    fluxPatchRefsE env f [Yaml.str pp] =
      .ok (if fileExists env (resolveReference env f pp)
        then [resolveReference env f pp] else []) ∧
    (∀ F refs T, getA (buildReferenceMap env).fileReferences F = some refs → T ∈ refs →
      fileExists env T = true) := by
  refine ⟨resolveOne_eq_gate env f y r hr,
    fluxSpecPathRefs_eq_gate env hwf f spec s hs hs2, ?_, ?_⟩
  · have hne : ∀ y2 ∈ [Yaml.str pp], patchRawOfE y2 ≠ .error () := by
      intro y2 hy2
      simp at hy2
      subst hy2
      simp [patchRawOfE]
    rw [fluxPatchRefsE_ok env f _ hne]
    by_cases hfe : fileExists env (resolveReference env f pp) <;>
      simp [patchRawOfE, hpp, hfe]
  · intro F refs T hget hT
    have h2 := (buildReferenceMap_inv env).refsEq F refs hget
    rw [h2] at hT
    exact fileRefsOf_exists env F T hT

/-- Witness for C3 on the base/overlay scenario: the overlay's `../../base`
reference resolves to the base directory and expands to the
kustomization.yaml inside it. -/
theorem c3_witness :
    resolveOne envScen "/w/overlays/prod/kustomization.yaml" (Yaml.str "../../base") =
      some "/w/base/kustomization.yaml" := by
  have h := (c3_directory_expansion envScen (by rfl) "/w/overlays/prod/kustomization.yaml"
    (Yaml.str "../../base") "../../base" (by rfl)
    (Yaml.obj [("path", Yaml.str "../../base")]) "../../base" (by rfl) (by decide)
    "x" (by decide)).1
  rw [h]
  rfl

/-- Counterexample to C3 as stated: in buildReferenceMap over envC3 the Flux
patch reference `pdir` resolves to an existing directory that contains a
kustomization.yaml, yet nothing is appended to fileReferences — Flux patch
references are not directory-expanded. -/
theorem c3_counterexample :
    getA (buildReferenceMap envC3).fileReferences "/w/app.yaml" = some [] ∧
    isDirectory envC3 (resolveReference envC3 "/w/app.yaml" "pdir") = true ∧
    fileExists envC3
      (pathJoin (resolveReference envC3 "/w/app.yaml" "pdir") "kustomization.yaml") =
      true :=
  ⟨rfl, rfl, rfl⟩

/-! ## C8 — full-rebuild idempotence: cache simulation -/

/-- Writing the discovery value keeps the cache consistent. -/
theorem consistent_setA (env : Env) (c : GitCache) (k : String)
    (h : GitCacheConsistent env c) :
    GitCacheConsistent env (setA c k (gitRootValue env k)) := by
  intro k2 r2 h2
  by_cases hk : k2 = k
  · subst hk
    rw [getA_setA_self] at h2
    injection h2 with h3
    exact h3.symm
  · rw [getA_setA_ne _ _ _ _ hk] at h2
    exact h k2 r2 h2

/-- The cached git-root lookup returns the uncached value on a consistent
cache, and keeps it consistent. -/
theorem findGitRootS_sim (env : Env) (c : GitCache) (p : String)
    (h : GitCacheConsistent env c) :
    ∃ c2, findGitRootS env c p = (findGitRoot env p, c2) ∧ GitCacheConsistent env c2 := by
  cases hc : getA c (dirname p) with
  | some r =>
      refine ⟨c, ?_, h⟩
      simp only [findGitRootS]
      rw [hc]
      rw [(h _ _ hc).trans (findGitRoot_eq env p).symm]
  | none =>
      cases hg : env.gitRootOf (dirname p) with
      | some g =>
          refine ⟨setA c (dirname p) g, ?_, ?_⟩
          · simp only [findGitRootS]
            rw [hc, hg]
            rw [show findGitRoot env p = g by
              rw [findGitRoot_eq]; unfold gitRootValue; rw [hg]]
          · have hval : g = gitRootValue env (dirname p) := by
              unfold gitRootValue; rw [hg]
            rw [hval]
            exact consistent_setA env c _ h
      | none =>
          refine ⟨setA c (dirname p) env.workspaceRoot, ?_, ?_⟩
          · simp only [findGitRootS]
            rw [hc, hg]
            rw [show findGitRoot env p = env.workspaceRoot by
              rw [findGitRoot_eq]; unfold gitRootValue; rw [hg]]
          · have hval : env.workspaceRoot = gitRootValue env (dirname p) := by
              unfold gitRootValue; rw [hg]
            rw [hval]
            exact consistent_setA env c _ h

/-- resolveReferenceS computes resolveReference on a consistent cache. -/
theorem resolveReferenceS_sim (env : Env) (c : GitCache) (basePath reference : String)
    (h : GitCacheConsistent env c) :
    ∃ c2, resolveReferenceS env c basePath reference =
      (resolveReference env basePath reference, c2) ∧ GitCacheConsistent env c2 := by
  by_cases hf : isFluxKustomizationFile env basePath
  · obtain ⟨c2, heq, hc2⟩ := findGitRootS_sim env c basePath h
    refine ⟨c2, ?_, hc2⟩
    simp only [resolveReferenceS, resolveReference, hf, if_true]
    rw [heq]
    by_cases ha : pathIsAbsolute reference <;> simp [ha]
  · exact ⟨c, by simp [resolveReferenceS, resolveReference, hf], h⟩

/-- fluxSpecPathRefsS computes fluxSpecPathRefs on a consistent cache. -/
theorem fluxSpecPathRefsS_sim (env : Env) (c : GitCache) (f : String) (spec : Yaml)
    (h : GitCacheConsistent env c) :
    ∃ c2, fluxSpecPathRefsS env c f spec = (fluxSpecPathRefs env f spec, c2) ∧
      GitCacheConsistent env c2 := by
  unfold fluxSpecPathRefsS fluxSpecPathRefs
  cases hs : spec.get "path" with
  | none => exact ⟨c, rfl, h⟩
  | some v =>
      cases v with
      | str s =>
          by_cases hs2 : s = ""
          · refine ⟨c, ?_, h⟩
            simp [hs2]
          · obtain ⟨c2, heq, hc2⟩ := resolveReferenceS_sim env c f s h
            refine ⟨c2, ?_, hc2⟩
            simp only [fluxSpecPathRefsS, fluxSpecPathRefs, hs]
            rw [heq]
            simp only [hs2, ne_eq, not_false_eq_true, if_true]
            split_ifs <;> rfl
      | num n => exact ⟨c, rfl, h⟩
      | boolean b => exact ⟨c, rfl, h⟩
      | nullv => exact ⟨c, rfl, h⟩
      | arr items => exact ⟨c, rfl, h⟩
      | obj fields => exact ⟨c, rfl, h⟩

/-- fluxPatchRefsES computes fluxPatchRefsE on a consistent cache. -/
theorem fluxPatchRefsES_sim (env : Env) (f : String) (l : List Yaml) :
    ∀ c : GitCache, GitCacheConsistent env c →
    ∃ c2, fluxPatchRefsES env f c l = (fluxPatchRefsE env f l, c2) ∧
      GitCacheConsistent env c2 := by
  induction l with
  | nil => exact fun c h => ⟨c, rfl, h⟩
  | cons patch rest ih =>
      intro c h
      cases hp : patchRawOfE patch with
      | error e =>
          refine ⟨c, ?_, h⟩
          cases e
          simp [fluxPatchRefsES, fluxPatchRefsE, hp, Bind.bind, Except.bind]
      | ok po =>
          cases po with
          | some pp =>
              obtain ⟨c1, heq1, hc1⟩ := resolveReferenceS_sim env c f pp h
              obtain ⟨c2, heq2, hc2⟩ := ih c1 hc1
              refine ⟨c2, ?_, hc2⟩
              rw [show fluxPatchRefsES env f c (patch :: rest) =
                ((fluxPatchRefsE env f rest).map fun tail =>
                  if fileExists env (resolveReference env f pp) then
                    resolveReference env f pp :: tail
                  else tail, c2) by
                simp only [fluxPatchRefsES, hp]
                rw [heq1, heq2]]
              cases ht : fluxPatchRefsE env f rest with
              | error e2 =>
                  simp [fluxPatchRefsE, hp, ht, Bind.bind, Except.bind, Except.map]
              | ok tail =>
                  by_cases hfe : fileExists env (resolveReference env f pp) <;>
                    simp [fluxPatchRefsE, hp, ht, hfe, Bind.bind, Except.bind,
                      Except.map, Pure.pure, Except.pure]
          | none =>
              obtain ⟨c2, heq2, hc2⟩ := ih c h
              refine ⟨c2, ?_, hc2⟩
              rw [show fluxPatchRefsES env f c (patch :: rest) =
                (fluxPatchRefsE env f rest, c2) by
                simp only [fluxPatchRefsES, hp]
                rw [heq2]]
              cases ht : fluxPatchRefsE env f rest with
              | error e2 =>
                  simp [fluxPatchRefsE, hp, ht, Bind.bind, Except.bind]
              | ok tail =>
                  simp [fluxPatchRefsE, hp, ht, Bind.bind, Except.bind, Pure.pure,
                    Except.pure]

/-- parseFluxKustomizationES computes parseFluxKustomizationE on a consistent
cache. -/
theorem parseFluxKustomizationES_sim (env : Env) (c : GitCache) (f : String)
    (parsed : Yaml) (h : GitCacheConsistent env c) :
    ∃ c2, parseFluxKustomizationES env c f parsed =
      (parseFluxKustomizationE env f parsed, c2) ∧ GitCacheConsistent env c2 := by
  unfold parseFluxKustomizationES parseFluxKustomizationE
  cases hs : parsed.get "spec" with
  | none => exact ⟨c, rfl, h⟩
  | some spec =>
      by_cases ht : spec.truthy
      · simp only [ht, Bool.not_true, Bool.false_eq_true, if_false]
        obtain ⟨c1, heq1, hc1⟩ := fluxSpecPathRefsS_sim env c f spec h
        obtain ⟨c2, heq2, hc2⟩ := fluxPatchRefsES_sim env f (arrField spec "patches") c1 hc1
        rw [heq1, heq2]
        cases h1 : fluxPatchRefsE env f (arrField spec "patches") with
        | error e =>
            refine ⟨c2, ?_, hc2⟩
            simp [h1, Bind.bind, Except.bind]
        | ok r1 =>
            obtain ⟨c3, heq3, hc3⟩ :=
              fluxPatchRefsES_sim env f (arrField spec "patchesStrategicMerge") c2 hc2
            rw [heq3]
            cases h2 : fluxPatchRefsE env f (arrField spec "patchesStrategicMerge") with
            | error e =>
                refine ⟨c3, ?_, hc3⟩
                simp [h1, h2, Bind.bind, Except.bind]
            | ok r2 =>
                obtain ⟨c4, heq4, hc4⟩ :=
                  fluxPatchRefsES_sim env f (arrField spec "patchesJson6902") c3 hc3
                rw [heq4]
                cases h3 : fluxPatchRefsE env f (arrField spec "patchesJson6902") with
                | error e =>
                    refine ⟨c4, ?_, hc4⟩
                    simp [h1, h2, h3, Bind.bind, Except.bind]
                | ok r3 =>
                    refine ⟨c4, ?_, hc4⟩
                    simp [h1, h2, h3, Bind.bind, Except.bind, Pure.pure, Except.pure]
      · simp only [ht]
        exact ⟨c, by simp, h⟩

/-- fluxResultsES computes fluxResultsE on a consistent cache. -/
theorem fluxResultsES_sim (env : Env) (f : String) (l : List Yaml) :
    ∀ c : GitCache, GitCacheConsistent env c →
    ∃ c2, fluxResultsES env f c l = (fluxResultsE env f l, c2) ∧
      GitCacheConsistent env c2 := by
  induction l with
  | nil => exact fun c h => ⟨c, rfl, h⟩
  | cons doc rest ih =>
      intro c h
      obtain ⟨c1, heq1, hc1⟩ := parseFluxKustomizationES_sim env c f doc h
      cases hr : parseFluxKustomizationE env f doc with
      | error e =>
          refine ⟨c1, ?_, hc1⟩
          simp only [fluxResultsES]
          rw [heq1]
          simp only [hr]
          simp [fluxResultsE, hr, Bind.bind, Except.bind]
      | ok r =>
          obtain ⟨c2, heq2, hc2⟩ := ih c1 hc1
          refine ⟨c2, ?_, hc2⟩
          simp only [fluxResultsES]
          rw [heq1]
          simp only [hr]
          rw [heq2]
          cases ht : fluxResultsE env f rest with
          | error e2 =>
              cases r <;>
                simp [fluxResultsE, hr, ht, Bind.bind, Except.bind, Except.map]
          | ok tail =>
              cases r <;>
                simp [fluxResultsE, hr, ht, Bind.bind, Except.bind, Except.map,
                  Pure.pure, Except.pure]

/-- parseKustomizationFileS computes parseKustomizationFile on a consistent
cache. -/
theorem parseKustomizationFileS_sim (env : Env) (c : GitCache) (f : String)
    (h : GitCacheConsistent env c) :
    ∃ c2, parseKustomizationFileS env c f = (parseKustomizationFile env f, c2) ∧
      GitCacheConsistent env c2 := by
  unfold parseKustomizationFileS parseKustomizationFile
  by_cases hex : fileExists env f
  · simp only [hex, Bool.not_true, Bool.false_eq_true, if_false]
    cases hsd : standardDocsOfE env f with
    | error e => exact ⟨c, rfl, h⟩
    | ok standardDocs =>
        obtain ⟨c2, heq2, hc2⟩ := fluxResultsES_sim env f (fluxDocsOf env f) c h
        rw [heq2]
        cases hfr : fluxResultsE env f (fluxDocsOf env f) with
        | error e => exact ⟨c2, rfl, hc2⟩
        | ok fluxResults => exact ⟨c2, rfl, hc2⟩
  · simp only [hex]
    exact ⟨c, by simp, h⟩

/-- getFluxResolvedReferencesS computes getFluxResolvedReferences on a
consistent cache. -/
theorem getFluxResolvedReferencesS_sim (env : Env) (c : GitCache) (f : String)
    (h : GitCacheConsistent env c) :
    ∃ c2, getFluxResolvedReferencesS env c f = (getFluxResolvedReferences env f, c2) ∧
      GitCacheConsistent env c2 := by
  unfold getFluxResolvedReferencesS getFluxResolvedReferences
  by_cases hex : fileExists env f
  · simp only [hex, Bool.not_true, Bool.false_eq_true, if_false]
    by_cases hemp : (fluxDocsOf env f).isEmpty
    · simp only [hemp, if_true]
      exact ⟨c, rfl, h⟩
    · simp only [hemp, Bool.false_eq_true, if_false]
      obtain ⟨c2, heq2, hc2⟩ := fluxResultsES_sim env f (fluxDocsOf env f) c h
      rw [heq2]
      cases hfr : fluxResultsE env f (fluxDocsOf env f) with
      | error e => exact ⟨c2, rfl, hc2⟩
      | ok results => exact ⟨c2, rfl, hc2⟩
  · simp only [hex]
    exact ⟨c, by simp, h⟩

/-- resolveOneS computes resolveOne on a consistent cache. -/
theorem resolveOneS_sim (env : Env) (c : GitCache) (f : String) (y : Yaml)
    (h : GitCacheConsistent env c) :
    ∃ c2, resolveOneS env c f y = (resolveOne env f y, c2) ∧ GitCacheConsistent env c2 := by
  cases hr : rawRefOf y with
  | none => exact ⟨c, by simp [resolveOneS, resolveOne, hr], h⟩
  | some r =>
      obtain ⟨c2, heq, hc2⟩ := resolveReferenceS_sim env c f r h
      refine ⟨c2, ?_, hc2⟩
      simp only [resolveOneS, resolveOne, hr]
      rw [heq]

/-- filterMapS computes List.filterMap when its step does. -/
theorem filterMapS_sim (env : Env) (g : GitCache → α → Option β × GitCache)
    (gp : α → Option β)
    (hg : ∀ (c : GitCache) (a : α), GitCacheConsistent env c →
      ∃ c2, g c a = (gp a, c2) ∧ GitCacheConsistent env c2)
    (l : List α) :
    ∀ c : GitCache, GitCacheConsistent env c →
    ∃ c2, filterMapS g c l = (l.filterMap gp, c2) ∧ GitCacheConsistent env c2 := by
  induction l with
  | nil => exact fun c h => ⟨c, rfl, h⟩
  | cons x xs ih =>
      intro c h
      obtain ⟨c1, heq1, hc1⟩ := hg c x h
      obtain ⟨c2, heq2, hc2⟩ := ih c1 hc1
      refine ⟨c2, ?_, hc2⟩
      rw [show filterMapS g c (x :: xs) =
        ((match gp x with | some b => b :: xs.filterMap gp | none => xs.filterMap gp), c2) by
        simp only [filterMapS]
        rw [heq1, heq2]]
      cases hx : gp x <;> simp [List.filterMap_cons, hx]

/-- mapS computes List.map when its step does. -/
theorem mapS_sim (env : Env) (g : GitCache → α → β × GitCache) (gp : α → β)
    (hg : ∀ (c : GitCache) (a : α), GitCacheConsistent env c →
      ∃ c2, g c a = (gp a, c2) ∧ GitCacheConsistent env c2)
    (l : List α) :
    ∀ c : GitCache, GitCacheConsistent env c →
    ∃ c2, mapS g c l = (l.map gp, c2) ∧ GitCacheConsistent env c2 := by
  induction l with
  | nil => exact fun c h => ⟨c, rfl, h⟩
  | cons x xs ih =>
      intro c h
      obtain ⟨c1, heq1, hc1⟩ := hg c x h
      obtain ⟨c2, heq2, hc2⟩ := ih c1 hc1
      refine ⟨c2, ?_, hc2⟩
      simp only [mapS]
      rw [heq1, heq2]
      simp

/-- refsOfStandardDocS computes refsOfStandardDoc on a consistent cache. -/
theorem refsOfStandardDocS_sim (env : Env) (c : GitCache) (f : String) (k : KFile)
    (h : GitCacheConsistent env c) :
    ∃ c2, refsOfStandardDocS env c f k = (refsOfStandardDoc env f k, c2) ∧
      GitCacheConsistent env c2 := by
  unfold refsOfStandardDocS refsOfStandardDoc
  obtain ⟨c1, heq1, hc1⟩ := filterMapS_sim env (fun c y => resolveOneS env c f y)
    (resolveOne env f) (fun c y hc => resolveOneS_sim env c f y hc)
    (k.resources ++ k.bases ++ k.components ++ k.patches ++
      k.patchesStrategicMerge ++ k.configurations ++ k.crds) c h
  obtain ⟨c2, heq2, hc2⟩ := filterMapS_sim env
    (fun c patch =>
      match patch.get "path" with
      | some v => if v.truthy then resolveOneS env c f v else (none, c)
      | none => (none, c))
    (fun patch =>
      match patch.get "path" with
      | some v => if v.truthy then resolveOne env f v else none
      | none => none)
    (by
      intro c0 patch hc0
      cases hp : patch.get "path" with
      | none =>
          refine ⟨c0, ?_, hc0⟩
          simp only [hp]
      | some v =>
          by_cases ht : v.truthy
          · obtain ⟨c2, heq, hc2⟩ := resolveOneS_sim env c0 f v hc0
            refine ⟨c2, ?_, hc2⟩
            simp only [hp, ht, if_true]
            exact heq
          · refine ⟨c0, ?_, hc0⟩
            simp only [hp, ht, Bool.false_eq_true, if_false])
    k.patchesJson6902 c1 hc1
  refine ⟨c2, ?_, hc2⟩
  rw [heq1]
  simp only [heq2]

/-- processFileS computes processFile on a consistent cache. -/
theorem processFileS_sim (env : Env) (c : GitCache) (rm : RefMap) (f : String)
    (h : GitCacheConsistent env c) :
    ∃ c2, processFileS env (rm, c) f = (processFile env rm f, c2) ∧
      GitCacheConsistent env c2 := by
  obtain ⟨c1, heq1, hc1⟩ := parseKustomizationFileS_sim env c f h
  by_cases hks : (parseKustomizationFile env f).isEmpty
  · refine ⟨c1, ?_, hc1⟩
    simp only [processFileS, processFile, heq1, hks, if_true]
  · by_cases hflux : isFluxKustomizationFile env f
    · obtain ⟨c2, heq2, hc2⟩ := getFluxResolvedReferencesS_sim env c1 f hc1
      refine ⟨c2, ?_, hc2⟩
      simp only [processFileS, processFile, heq1, hks, Bool.false_eq_true, if_false,
        hflux, if_true, heq2]
      simp [fileRefsOf, hflux]
    · obtain ⟨c2, heq2, hc2⟩ := mapS_sim env (fun c k => refsOfStandardDocS env c f k)
        (refsOfStandardDoc env f) (fun c k hc => refsOfStandardDocS_sim env c f k hc)
        (parseKustomizationFile env f) c1 hc1
      refine ⟨c2, ?_, hc2⟩
      simp only [processFileS, processFile, heq1, hks, Bool.false_eq_true, if_false,
        hflux, heq2]
      simp [fileRefsOf, hflux]

/-- buildReferenceMapS computes buildReferenceMap on a consistent cache. -/
theorem buildReferenceMapS_sim (env : Env) (c : GitCache) (h : GitCacheConsistent env c) :
    ∃ c2, buildReferenceMapS env c = (buildReferenceMap env, c2) ∧
      GitCacheConsistent env c2 := by
  unfold buildReferenceMapS buildReferenceMap
  generalize findKustomizationFiles env = l
  suffices hgen : ∀ (l : List String) (rm : RefMap) (c : GitCache),
      GitCacheConsistent env c →
      ∃ c2, l.foldl (processFileS env) (rm, c) = (l.foldl (processFile env) rm, c2) ∧
        GitCacheConsistent env c2 by
    exact hgen l ⟨[], []⟩ c h
  intro l
  induction l with
  | nil => exact fun rm c0 h0 => ⟨c0, rfl, h0⟩
  | cons x xs ih =>
      intro rm c0 h0
      obtain ⟨c1, heq1, hc1⟩ := processFileS_sim env c0 rm x h0
      rw [List.foldl_cons, List.foldl_cons, heq1]
      exact ih (processFile env rm x) c1 hc1

/-- C8: on an unchanged file tree, running buildReferenceMap twice in a row
produces identical fileReferences and fileBackReferences — the source resets
this.referenceMap on entry, and the only parser state carried into the second
run, the per-directory gitRootCache, holds exactly the values discovery
returns, so the second run computes the same map (and both equal the
cache-free computation). -/
theorem c8_rebuild_idempotent (env : Env) (c : GitCache) (h : GitCacheConsistent env c) :
    (buildReferenceMapS env ((buildReferenceMapS env c).2)).1 =
      (buildReferenceMapS env c).1 ∧
    (buildReferenceMapS env c).1 = buildReferenceMap env := by
  obtain ⟨c1, heq1, hc1⟩ := buildReferenceMapS_sim env c h
  obtain ⟨c2, heq2, hc2⟩ := buildReferenceMapS_sim env ((buildReferenceMapS env c).2) (by
    rw [heq1]
    exact hc1)
  rw [heq2, heq1]
  exact ⟨rfl, rfl⟩

/-- Witness for C8 on the base/overlay scenario, starting from the empty
git-root cache a fresh parser has. -/
theorem c8_witness :
    (buildReferenceMapS envScen ((buildReferenceMapS envScen []).2)).1 =
      (buildReferenceMapS envScen []).1 := by
  exact (c8_rebuild_idempotent envScen []
    (by intro k r hkr; cases hkr)).1

end KNav
